import Mathlib

/-!
Verification of the ui-binder directive-parsing core.

JavaScript strings are modelled as `List Char`; all string inputs considered
here are ASCII.  Each definition mirrors one function of the source
(`src/utils/properties.js`, `src/models/directive-parser/...`,
`src/models/handler-context.js`, `src/models/bridge-base.js`).  JS string
methods (`split`, `join`, `replace` with a literal global pattern, `slice`,
`trim`, `startsWith`, `includes`, `indexOf`, `lastIndexOf`) are modelled by
the list functions below; `replace` with a literal pattern and a constant
replacement equals split-on-pattern followed by join-with-replacement.
-/

namespace UiBinder

/-- JS strings as lists of characters. -/
abbrev Str := List Char

/-! ## Character classes (the character sets of the source's regexes) -/

/-- The characters matched by the regex class `[a-z]`. -/
def lowerChars : Str := ("abcdefghijklmnopqrstuvwxyz").toList

/-- The characters matched by the regex class `[A-Z]`. -/
def upperChars : Str := ("ABCDEFGHIJKLMNOPQRSTUVWXYZ").toList

/-- The characters matched by the regex class `[0-9]`. -/
def digitChars : Str := ("0123456789").toList

def isAsciiLower (c : Char) : Bool := decide (c ∈ lowerChars)

def isAsciiUpper (c : Char) : Bool := decide (c ∈ upperChars)

def isAsciiDigit (c : Char) : Bool := decide (c ∈ digitChars)

/-- The regex class `[a-zA-Z]` (what the case-insensitive hyphen-letter
regex of the decoder accepts after the hyphen). -/
def isAsciiLetter (c : Char) : Bool := isAsciiLower c || isAsciiUpper c

def isAsciiAlnum (c : Char) : Bool := isAsciiLetter c || isAsciiDigit c

/-! ## JS string primitives -/

/-- JS `s.split(sep)` for a one-character separator `sep`. -/
def splitOnChar (sep : Char) : Str → List Str
  | [] => [[]]
  | c :: rest =>
    if c = sep then [] :: splitOnChar sep rest
    else
      match splitOnChar sep rest with
      | [] => [[c]]
      | s :: ss => (c :: s) :: ss

/-- JS `s.split(p)` for a two-character separator `p = ⟨a, b⟩`
(leftmost, non-overlapping occurrences). -/
def splitOnPair (a b : Char) : Str → List Str
  | [] => [[]]
  | [c] => [[c]]
  | c :: d :: rest =>
    if c = a ∧ d = b then [] :: splitOnPair a b rest
    else
      match splitOnPair a b (d :: rest) with
      | [] => [[c]]
      | s :: ss => (c :: s) :: ss

/-- JS `segments.join(sep)`. -/
def joinWith (sep : Str) : List Str → Str
  | [] => []
  | [s] => s
  | s :: rest => s ++ sep ++ joinWith sep rest

/-- JS `s.replace(pat, rep)` with a two-character literal global pattern:
split on the pattern, join with the replacement. -/
def replacePair (a b : Char) (rep : Str) (l : Str) : Str :=
  joinWith rep (splitOnPair a b l)

/-- Fuel-driven JS `s.split(pat)` for an arbitrary non-empty literal pattern
(leftmost, non-overlapping).  Each step consumes at least one character, so
with `fuel ≥ s.length` the fuel-exhausted branch is unreachable. -/
def splitOnSeqF (pat : Str) : Nat → Str → List Str
  | _, [] => [[]]
  | 0, l => [l]
  | fuel + 1, c :: rest =>
    if pat ≠ [] ∧ pat.isPrefixOf (c :: rest) then
      [] :: splitOnSeqF pat fuel ((c :: rest).drop pat.length)
    else
      match splitOnSeqF pat fuel rest with
      | [] => [[c]]
      | s :: ss => (c :: s) :: ss

/-- JS `s.split(pat)` for an arbitrary non-empty literal pattern. -/
def splitOnSeq (pat : Str) (l : Str) : List Str := splitOnSeqF pat l.length l

/-- JS `s.replace(pat, rep)` with an arbitrary literal global pattern. -/
def replaceSeq (pat rep : Str) (l : Str) : Str := joinWith rep (splitOnSeq pat l)

/-- JS `s.includes(p)` for a two-character `p = ⟨a, b⟩`. -/
def containsPair (a b : Char) : Str → Bool
  | [] => false
  | [_] => false
  | c :: d :: rest => (c = a && d = b) || containsPair a b (d :: rest)

/-- Character-wise global replacement; JS `s.replace(pat, rep)` with a
one-character literal pattern replaces each occurrence independently. -/
def expandChars (f : Char → Str) : Str → Str
  | [] => []
  | c :: rest => f c ++ expandChars f rest

/-- JS `s.replace(/a/g, rep)` for a single character `a`. -/
def replaceChar (a : Char) (rep : Str) (l : Str) : Str :=
  expandChars (fun c => if c = a then rep else [c]) l

/-- JS `part.replace(hyphenLetter, g => g[1].toUpperCase())` where
`hyphenLetter` is the global case-insensitive regex matching a hyphen
followed by a letter of `[a-z]`: every hyphen followed by an ASCII letter is
replaced by the upper-cased letter; scanning is left to right over
non-overlapping matches. -/
def camelize : Str → Str
  | [] => []
  | [c] => [c]
  | c :: d :: rest =>
    if c = '-' ∧ isAsciiLetter d then Char.toUpper d :: camelize rest
    else c :: camelize (d :: rest)

/-- JS `prop.replace(/([A-Z])/g, c => ... )` step of the encoder: insert a
hyphen before every ASCII uppercase letter (the letter itself is kept; the
subsequent `.toLowerCase()` lowers it). -/
def kebabUpper (l : Str) : Str :=
  expandChars (fun c => if isAsciiUpper c then ['-', c] else [c]) l

/-- JS `s.toLowerCase()` (ASCII model). -/
def toLowerAll (l : Str) : Str := l.map Char.toLower

/-! ## Name codec (`src/utils/properties.js`) -/

/-- The internal marker `"__DOT_MARKER__"` protecting literal `".."`. -/
def dotMarker : Str := ("__DOT_MARKER__").toList

/-- The default prefix `"data-"`. -/
def dataPre : Str := ("data-").toList

/-- Body of the per-segment loop of `attributeNameToPropertyName`: inside a
dot-separated segment, `"--"` escapes a literal hyphen (split on `"--"`,
camelize sub-parts of length ≠ 1, rejoin with a single hyphen); a segment
without `"--"` is camelized directly unless of length 1. -/
def decodeSegPart (part : Str) : Str :=
  if containsPair '-' '-' part then
    let subparts := splitOnPair '-' '-' part
    let propParts := subparts.map (fun subpart =>
      if subpart.length = 1 then subpart else camelize subpart)
    joinWith ['-'] propParts
  else
    if part.length = 1 then part else camelize part

/-- Source `attributeNameToPropertyName(attrName, prefix)`: strip the prefix,
protect `".."` with the marker, split into dot-separated segments, transform
each segment with `decodeSegPart`, rejoin with dots and restore the
marker. -/
def attributeNameToPropertyName (attrName : Str) (pre : Str) : Str :=
  if ¬ (pre.isPrefixOf attrName) then attrName
  else
    let result := attrName.drop pre.length
    let result := replacePair '.' '.' dotMarker result
    let parts := splitOnChar '.' result
    let parts := parts.map decodeSegPart
    let result := joinWith ['.'] parts
    replaceSeq dotMarker ['.', '.'] result

/-- Body of the per-segment loop of `propertyNameToAttributeName`: escape `-`
as `--` and `.` as `..`, insert a hyphen before each uppercase letter, then
lowercase. -/
def encodeSeg (prop : Str) : Str :=
  let p1 := replaceChar '-' ['-', '-'] prop
  let p2 := replaceChar '.' ['.', '.'] p1
  toLowerAll (kebabUpper p2)

/-- Source `propertyNameToAttributeName(input, prefix)` for a string input:
split on dots, transform each path segment with `encodeSeg`, rejoin with
dots and prepend the prefix. -/
def propertyNameToAttributeName (input : Str) (pre : Str) : Str :=
  let propPath := splitOnChar '.' input
  let result := propPath.map encodeSeg
  pre ++ joinWith ['.'] result

/-- Source `propertyNameToPath(propertyName)`: protect `".."` with the
marker, split on dots, restore the marker to a literal dot in each part. -/
def propertyNameToPath (propertyName : Str) : List Str :=
  let p := replacePair '.' '.' dotMarker propertyName
  let path := splitOnChar '.' p
  path.map (fun part => replaceSeq dotMarker ['.'] part)

/-! ## Sanity checks against the source's own doc comments and tests -/

example : attributeNameToPropertyName (("data-test-attr-nested").toList) dataPre
    = ("testAttrNested").toList := by decide

example : attributeNameToPropertyName (("data-user.first-name").toList) dataPre
    = ("user.firstName").toList := by decide

example : attributeNameToPropertyName (("data-obj..path").toList) dataPre
    = ("obj..path").toList := by decide

example : propertyNameToAttributeName (("user.firstName").toList) dataPre
    = ("data-user.first-name").toList := by decide

example : propertyNameToAttributeName (("user-name").toList) dataPre
    = ("data-user--name").toList := by decide

example : propertyNameToPath (("a....b").toList) = [("a..b").toList] := by decide

/-! ## Lemmas about the string primitives -/

theorem splitOnChar_ne_nil (sep : Char) : ∀ l : Str, splitOnChar sep l ≠ []
  | [] => by simp [splitOnChar]
  | c :: rest => by
    by_cases h : c = sep
    · simp [splitOnChar, h]
    · simp only [splitOnChar, if_neg h]
      cases hs : splitOnChar sep rest with
      | nil => simp
      | cons s ss => simp

theorem splitOnChar_cons_eq (sep : Char) (rest : Str) :
    splitOnChar sep (sep :: rest) = [] :: splitOnChar sep rest := by
  simp [splitOnChar]

theorem splitOnChar_cons_ne (sep c : Char) (rest : Str) (h : c ≠ sep) (w : Str)
    (ws : List Str) (hr : splitOnChar sep rest = w :: ws) :
    splitOnChar sep (c :: rest) = (c :: w) :: ws := by
  simp [splitOnChar, h, hr]

theorem splitOnChar_append (sep : Char) : ∀ (s v : Str), (∀ c ∈ s, c ≠ sep) →
    ∀ (w : Str) (ws : List Str), splitOnChar sep v = w :: ws →
    splitOnChar sep (s ++ v) = (s ++ w) :: ws
  | [], _, _, _, _, hv => by simpa using hv
  | c :: s', v, h, w, ws, hv => by
    have hc : c ≠ sep := h c (by simp)
    have ih := splitOnChar_append sep s' v (fun x hx => h x (by simp [hx])) w ws hv
    rw [List.cons_append]
    exact splitOnChar_cons_ne sep c (s' ++ v) hc (s' ++ w) ws ih

theorem joinWith_splitOnChar (sep : Char) : ∀ l : Str, joinWith [sep] (splitOnChar sep l) = l
  | [] => rfl
  | c :: rest => by
    have ih := joinWith_splitOnChar sep rest
    by_cases h : c = sep
    · rw [h]
      rw [splitOnChar_cons_eq]
      cases hs : splitOnChar sep rest with
      | nil => exact absurd hs (splitOnChar_ne_nil sep rest)
      | cons s ss =>
        rw [hs] at ih
        simp [joinWith, hs, ih]
    · cases hs : splitOnChar sep rest with
      | nil => exact absurd hs (splitOnChar_ne_nil sep rest)
      | cons s ss =>
        rw [splitOnChar_cons_ne sep c rest h s ss hs]
        rw [hs] at ih
        cases ss with
        | nil =>
          simp only [joinWith] at ih ⊢
          rw [ih]
        | cons s2 ss2 =>
          simp only [joinWith] at ih ⊢
          simp [← ih]

theorem splitOnChar_joinWith (sep : Char) : ∀ (segs : List Str), segs ≠ [] →
    (∀ s ∈ segs, ∀ c ∈ s, c ≠ sep) → splitOnChar sep (joinWith [sep] segs) = segs
  | [], h, _ => absurd rfl h
  | [s], _, hc => by
    have h0 : splitOnChar sep (s ++ ([] : Str)) = (s ++ []) :: [] :=
      splitOnChar_append sep s [] (hc s (by simp)) [] [] rfl
    simpa [joinWith] using h0
  | s :: s2 :: rest, _, hc => by
    have ih := splitOnChar_joinWith sep (s2 :: rest) (by simp)
      (fun t ht c hct => hc t (by simp [ht]) c hct)
    have h2 : splitOnChar sep (sep :: joinWith [sep] (s2 :: rest)) = [] :: (s2 :: rest) := by
      rw [splitOnChar_cons_eq, ih]
    have h3 := splitOnChar_append sep s (sep :: joinWith [sep] (s2 :: rest))
      (hc s (by simp)) [] (s2 :: rest) h2
    simpa [joinWith, List.append_assoc] using h3

theorem containsPair_cons_of_ne (a b x : Char) (t : Str) (hx : x ≠ a) :
    containsPair a b (x :: t) = containsPair a b t := by
  cases t with
  | nil => simp [containsPair]
  | cons y t' => simp [containsPair, hx]

theorem containsPair_append_of_ne (a b : Char) : ∀ (s t : Str), (∀ c ∈ s, c ≠ a) →
    containsPair a b (s ++ t) = containsPair a b t
  | [], _, _ => rfl
  | x :: s', t, h => by
    rw [List.cons_append, containsPair_cons_of_ne a b x _ (h x (by simp))]
    exact containsPair_append_of_ne a b s' t (fun c hc => h c (by simp [hc]))

theorem splitOnPair_eq_single (a b : Char) : ∀ (l : Str), containsPair a b l = false →
    splitOnPair a b l = [l]
  | [], _ => rfl
  | [_], _ => rfl
  | c :: d :: rest, h => by
    simp only [containsPair, Bool.or_eq_false_iff, Bool.and_eq_false_iff,
      decide_eq_false_iff_not] at h
    have ih := splitOnPair_eq_single a b (d :: rest) h.2
    have hne : ¬(c = a ∧ d = b) := by
      rcases h.1 with h1 | h1
      · exact fun hcd => h1 hcd.1
      · exact fun hcd => h1 hcd.2
    simp [splitOnPair, hne, ih]

theorem replacePair_eq_self (a b : Char) (rep l : Str) (h : containsPair a b l = false) :
    replacePair a b rep l = l := by
  unfold replacePair
  rw [splitOnPair_eq_single a b l h]
  rfl

theorem splitOnSeqF_eq_single (m : Char) (ms : Str) : ∀ (f : Nat) (l : Str),
    (∀ c ∈ l, c ≠ m) → splitOnSeqF (m :: ms) f l = [l]
  | _, [], _ => by cases ‹Nat› <;> rfl
  | 0, _ :: _, _ => rfl
  | f + 1, c :: rest, h => by
    have hpre : (m :: ms).isPrefixOf (c :: rest) = false := by
      have hcm : ¬(m == c) = true := by
        simp only [beq_iff_eq]
        exact fun hmc => (h c (by simp)) hmc.symm
      simp [List.isPrefixOf, hcm]
    have ih := splitOnSeqF_eq_single m ms f rest (fun x hx => h x (by simp [hx]))
    simp [splitOnSeqF, hpre, ih]

theorem replaceSeq_eq_self (m : Char) (ms rep l : Str) (h : ∀ c ∈ l, c ≠ m) :
    replaceSeq (m :: ms) rep l = l := by
  unfold replaceSeq splitOnSeq
  rw [splitOnSeqF_eq_single m ms l.length l h]
  rfl

theorem isPrefixOf_append_self : ∀ (p t : Str), p.isPrefixOf (p ++ t) = true
  | [], _ => by simp [List.isPrefixOf]
  | c :: p', t => by simp [List.isPrefixOf, isPrefixOf_append_self p' t]

theorem joinWith_cons_head (sep : Str) (y : Char) (s' : Str) (rest : List Str) :
    ∃ t, joinWith sep ((y :: s') :: rest) = y :: t := by
  cases rest with
  | nil => exact ⟨s', rfl⟩
  | cons r rs => exact ⟨s' ++ sep ++ joinWith sep (r :: rs), by simp [joinWith]⟩

theorem containsPair_joinWith (sep : Char) : ∀ (segs : List Str),
    (∀ s ∈ segs, s ≠ [] ∧ ∀ c ∈ s, c ≠ sep) →
    containsPair sep sep (joinWith [sep] segs) = false
  | [], _ => rfl
  | [s], h => by
    have h0 := containsPair_append_of_ne sep sep s [] (h s (by simp)).2
    simpa [joinWith] using h0
  | s :: s2 :: rest, h => by
    have ih := containsPair_joinWith sep (s2 :: rest)
      (fun t ht => h t (by simp [ht]))
    obtain ⟨y, s2', hy⟩ := List.exists_cons_of_ne_nil (h s2 (by simp)).1
    obtain ⟨t, hjoin⟩ := joinWith_cons_head [sep] y s2' rest
    have hys : y ∈ s2 := by simp [hy]
    have hysep : y ≠ sep := (h s2 (by simp)).2 y hys
    have hJ : joinWith [sep] (s2 :: rest) = y :: t := by rw [hy]; exact hjoin
    have step1 : joinWith [sep] (s :: s2 :: rest)
        = s ++ (sep :: joinWith [sep] (s2 :: rest)) := by
      simp [joinWith]
    rw [step1, containsPair_append_of_ne sep sep s _ (h s (by simp)).2, hJ]
    simp only [containsPair, Bool.or_eq_false_iff]
    constructor
    · simp [hysep]
    · rw [← hJ]
      exact ih

theorem mem_joinWith (sep : Char) : ∀ (segs : List Str) (c : Char),
    c ∈ joinWith [sep] segs → c = sep ∨ ∃ s ∈ segs, c ∈ s
  | [], _, h => absurd h (by simp [joinWith])
  | [s], c, h => Or.inr ⟨s, by simp, by simpa [joinWith] using h⟩
  | s :: s2 :: rest, c, h => by
    simp only [joinWith, List.append_assoc, List.mem_append, List.singleton_append,
      List.mem_cons] at h
    rcases h with h | h | h
    · exact Or.inr ⟨s, by simp, h⟩
    · exact Or.inl h
    · rcases mem_joinWith sep (s2 :: rest) c h with h' | ⟨t, ht, hct⟩
      · exact Or.inl h'
      · exact Or.inr ⟨t, by simp [List.mem_cons] at ht ⊢; tauto, hct⟩

theorem expandChars_cons (f : Char → Str) (c : Char) (rest : Str) :
    expandChars f (c :: rest) = f c ++ expandChars f rest := rfl

theorem replaceChar_eq_self (a : Char) (rep : Str) : ∀ l : Str, (∀ c ∈ l, c ≠ a) →
    replaceChar a rep l = l
  | [], _ => rfl
  | c :: rest, h => by
    have ih := replaceChar_eq_self a rep rest (fun x hx => h x (by simp [hx]))
    simp only [replaceChar, expandChars_cons] at ih ⊢
    simp [h c (by simp), ih]

/-! ## Character-class facts (checked by evaluation over the finite classes) -/

theorem toLower_hyphen : Char.toLower '-' = '-' := by decide

theorem upper_toLower_mem : ∀ c ∈ upperChars, Char.toLower c ∈ lowerChars := by decide

theorem upper_toUpper_toLower : ∀ c ∈ upperChars, Char.toUpper (Char.toLower c) = c := by decide

theorem upper_toLower_letter : ∀ c ∈ upperChars, isAsciiLetter (Char.toLower c) = true := by decide

theorem lower_toLower_eq : ∀ c ∈ lowerChars, Char.toLower c = c := by decide

theorem digit_toLower_eq : ∀ c ∈ digitChars, Char.toLower c = c := by decide

theorem lower_char_ne : ∀ c ∈ lowerChars, c ≠ '-' ∧ c ≠ '.' ∧ c ≠ '_' := by decide

theorem upper_char_ne : ∀ c ∈ upperChars, c ≠ '-' ∧ c ≠ '.' ∧ c ≠ '_' := by decide

theorem digit_char_ne : ∀ c ∈ digitChars, c ≠ '-' ∧ c ≠ '.' ∧ c ≠ '_' := by decide

theorem isAsciiLower_mem {c : Char} (h : isAsciiLower c = true) : c ∈ lowerChars :=
  of_decide_eq_true h

theorem isAsciiUpper_mem {c : Char} (h : isAsciiUpper c = true) : c ∈ upperChars :=
  of_decide_eq_true h

theorem alnum_cases {c : Char} (h : isAsciiAlnum c = true) :
    c ∈ lowerChars ∨ c ∈ upperChars ∨ c ∈ digitChars := by
  simpa [isAsciiAlnum, isAsciiLetter, isAsciiLower, isAsciiUpper, isAsciiDigit,
    Bool.or_eq_true, or_assoc] using h

theorem alnum_ne (c : Char) (h : isAsciiAlnum c = true) : c ≠ '-' ∧ c ≠ '.' ∧ c ≠ '_' := by
  rcases alnum_cases h with hc | hc | hc
  · exact lower_char_ne c hc
  · exact upper_char_ne c hc
  · exact digit_char_ne c hc

theorem alnum_toLower (c : Char) (h : isAsciiAlnum c = true) (hu : ¬ isAsciiUpper c = true) :
    Char.toLower c = c := by
  rcases alnum_cases h with hc | hc | hc
  · exact lower_toLower_eq c hc
  · exact absurd (by simpa [isAsciiUpper] using hc : isAsciiUpper c = true) hu
  · exact digit_toLower_eq c hc

/-! ## The composed per-segment encoder and its inverse -/

/-- The kebab-then-lowercase core of `encodeSeg` (what `encodeSeg` computes on
segments without hyphens or dots). -/
def kcOf (seg : Str) : Str := toLowerAll (kebabUpper seg)

theorem kcOf_nil : kcOf [] = [] := rfl

theorem kcOf_cons (c : Char) (rest : Str) :
    kcOf (c :: rest) =
      (if isAsciiUpper c then '-' :: Char.toLower c :: kcOf rest
       else Char.toLower c :: kcOf rest) := by
  by_cases h : isAsciiUpper c = true
  · simp [kcOf, kebabUpper, expandChars_cons, toLowerAll, h, toLower_hyphen]
  · simp [kcOf, kebabUpper, expandChars_cons, toLowerAll, h]

theorem kcOf_ne_nil (c : Char) (rest : Str) : kcOf (c :: rest) ≠ [] := by
  rw [kcOf_cons]
  by_cases h : isAsciiUpper c = true <;> simp [h]

theorem kcOf_chars : ∀ (seg : Str), (∀ c ∈ seg, isAsciiAlnum c = true) →
    ∀ x ∈ kcOf seg, x = '-' ∨ x ∈ lowerChars ∨ x ∈ digitChars
  | [], _, x, hx => absurd hx (by simp [kcOf_nil])
  | c :: rest, h, x, hx => by
    have hc := h c (by simp)
    have ih := kcOf_chars rest (fun y hy => h y (by simp [hy]))
    rw [kcOf_cons] at hx
    by_cases hu : isAsciiUpper c = true
    · rw [if_pos hu] at hx
      rcases List.mem_cons.mp hx with rfl | hx
      · exact Or.inl rfl
      · rcases List.mem_cons.mp hx with rfl | hx
        · exact Or.inr (Or.inl (upper_toLower_mem c (isAsciiUpper_mem hu)))
        · exact ih x hx
    · rw [if_neg hu] at hx
      rcases List.mem_cons.mp hx with rfl | hx
      · rw [alnum_toLower c hc hu]
        rcases alnum_cases hc with h1 | h1 | h1
        · exact Or.inr (Or.inl h1)
        · exact absurd (by simpa [isAsciiUpper] using h1) hu
        · exact Or.inr (Or.inr h1)
      · exact ih x hx

theorem kcOf_no_doubleHyphen : ∀ (seg : Str), (∀ c ∈ seg, isAsciiAlnum c = true) →
    containsPair '-' '-' (kcOf seg) = false
  | [], _ => rfl
  | c :: rest, h => by
    have hc := h c (by simp)
    have ih := kcOf_no_doubleHyphen rest (fun y hy => h y (by simp [hy]))
    rw [kcOf_cons]
    by_cases hu : isAsciiUpper c = true
    · rw [if_pos hu]
      have hne : Char.toLower c ≠ '-' :=
        (lower_char_ne _ (upper_toLower_mem c (isAsciiUpper_mem hu))).1
      have h1 : containsPair '-' '-' (Char.toLower c :: kcOf rest)
          = containsPair '-' '-' (kcOf rest) := containsPair_cons_of_ne _ _ _ _ hne
      calc containsPair '-' '-' ('-' :: Char.toLower c :: kcOf rest)
          = ((('-' : Char) = '-' && Char.toLower c = '-')
              || containsPair '-' '-' (Char.toLower c :: kcOf rest)) := rfl
        _ = false := by simp [hne, h1, ih]
    · rw [if_neg hu]
      have hcc : Char.toLower c = c := alnum_toLower c hc hu
      rw [hcc, containsPair_cons_of_ne _ _ _ _ (alnum_ne c hc).1]
      exact ih

theorem camelize_kcOf : ∀ (seg : Str), (∀ c ∈ seg, isAsciiAlnum c = true) →
    camelize (kcOf seg) = seg
  | [], _ => rfl
  | c :: rest, h => by
    have hc := h c (by simp)
    have ih := camelize_kcOf rest (fun y hy => h y (by simp [hy]))
    rw [kcOf_cons]
    by_cases hu : isAsciiUpper c = true
    · rw [if_pos hu]
      have hmem := isAsciiUpper_mem hu
      have hletter : isAsciiLetter (Char.toLower c) = true := upper_toLower_letter c hmem
      simp [camelize, hletter, upper_toUpper_toLower c hmem, ih]
    · rw [if_neg hu]
      rw [alnum_toLower c hc hu]
      cases hkc : kcOf rest with
      | nil =>
        have hrest : rest = [] := by
          cases rest with
          | nil => rfl
          | cons y t => exact absurd hkc (kcOf_ne_nil y t)
        subst hrest
        simp [camelize]
      | cons y t =>
        have hcne : ¬(c = '-' ∧ isAsciiLetter y = true) := fun hcy => (alnum_ne c hc).1 hcy.1
        rw [hkc] at ih
        calc camelize (c :: y :: t) = c :: camelize (y :: t) := by
              simp only [camelize]
              rw [if_neg (by simpa using hcne)]
          _ = c :: rest := by rw [ih]

theorem encodeSeg_eq_kcOf (seg : Str) (h : ∀ c ∈ seg, isAsciiAlnum c = true) :
    encodeSeg seg = kcOf seg := by
  show toLowerAll (kebabUpper (replaceChar '.' ['.', '.'] (replaceChar '-' ['-', '-'] seg)))
      = kcOf seg
  rw [replaceChar_eq_self '-' _ seg (fun c hc => (alnum_ne c (h c hc)).1),
    replaceChar_eq_self '.' _ seg (fun c hc => (alnum_ne c (h c hc)).2.1)]
  rfl

theorem decodeSegPart_kcOf (seg : Str) (h : ∀ c ∈ seg, isAsciiAlnum c = true) :
    decodeSegPart (kcOf seg) = seg := by
  have hnd := kcOf_no_doubleHyphen seg h
  have hcam := camelize_kcOf seg h
  unfold decodeSegPart
  rw [hnd]
  simp only [Bool.false_eq_true, if_false]
  by_cases hl : (kcOf seg).length = 1
  · rw [if_pos hl]
    obtain ⟨x, hx⟩ := List.length_eq_one.mp hl
    rw [hx] at hcam ⊢
    simpa [camelize] using hcam
  · rw [if_neg hl]
    exact hcam

/-! ## The round-trip law of the name codec -/

/-- A camelCase path segment: non-empty, beginning with an ASCII lowercase
letter, with the remaining characters ASCII alphanumeric. -/
def isCamelSeg : Str → Bool
  | [] => false
  | c :: rest => isAsciiLower c && rest.all isAsciiAlnum

/-- A camelCase property name without leading digits: every dot-separated
segment is a camelCase segment. -/
def isCamelName (n : Str) : Bool := (splitOnChar '.' n).all isCamelSeg

theorem isCamelSeg_spec {seg : Str} (h : isCamelSeg seg = true) :
    seg ≠ [] ∧ ∀ c ∈ seg, isAsciiAlnum c = true := by
  cases seg with
  | nil => simp [isCamelSeg] at h
  | cons c rest =>
    simp only [isCamelSeg, Bool.and_eq_true, List.all_eq_true] at h
    refine ⟨by simp, ?_⟩
    intro x hx
    rcases List.mem_cons.mp hx with rfl | hx
    · have hm : x ∈ lowerChars := isAsciiLower_mem h.1
      simp [isAsciiAlnum, isAsciiLetter, isAsciiLower, hm]
    · exact h.2 x hx

theorem attributeNameToPropertyName_of_startsWith (attrName pre : Str)
    (h : pre.isPrefixOf attrName = true) :
    attributeNameToPropertyName attrName pre =
      replaceSeq dotMarker ['.', '.']
        (joinWith ['.']
          ((splitOnChar '.'
            (replacePair '.' '.' dotMarker (attrName.drop pre.length))).map decodeSegPart)) := by
  unfold attributeNameToPropertyName
  rw [if_neg (by simpa using h)]

/-- Claim C1: for every camelCase property name `n` without leading digits,
decoding the encoding gives `n` back: with the default prefix `"data-"`,
`attributeNameToPropertyName (propertyNameToAttributeName n) = n`. -/
theorem roundtrip_camelName (n : Str) (h : isCamelName n = true) :
    attributeNameToPropertyName (propertyNameToAttributeName n dataPre) dataPre = n := by
  have hsegsne : splitOnChar '.' n ≠ [] := splitOnChar_ne_nil '.' n
  have hall : ∀ s ∈ splitOnChar '.' n, isCamelSeg s = true := by
    simpa [isCamelName, List.all_eq_true] using h
  have halnum : ∀ s ∈ splitOnChar '.' n, ∀ c ∈ s, isAsciiAlnum c = true :=
    fun s hs => (isCamelSeg_spec (hall s hs)).2
  have hne : ∀ s ∈ splitOnChar '.' n, s ≠ [] :=
    fun s hs => (isCamelSeg_spec (hall s hs)).1
  have hmapenc : (splitOnChar '.' n).map encodeSeg = (splitOnChar '.' n).map kcOf :=
    List.map_congr_left (fun s hs => encodeSeg_eq_kcOf s (halnum s hs))
  have henc : propertyNameToAttributeName n dataPre
      = dataPre ++ joinWith ['.'] ((splitOnChar '.' n).map kcOf) := by
    show dataPre ++ joinWith ['.'] ((splitOnChar '.' n).map encodeSeg) = _
    rw [hmapenc]
  rw [henc]
  have hkfacts : ∀ t ∈ (splitOnChar '.' n).map kcOf,
      t ≠ [] ∧ ∀ c ∈ t, c = '-' ∨ c ∈ lowerChars ∨ c ∈ digitChars := by
    intro t ht
    obtain ⟨s, hs, rfl⟩ := List.mem_map.mp ht
    obtain ⟨y, t', hy⟩ := List.exists_cons_of_ne_nil (hne s hs)
    refine ⟨?_, kcOf_chars s (halnum s hs)⟩
    rw [hy]
    exact kcOf_ne_nil y t'
  have hnodot : ∀ t ∈ (splitOnChar '.' n).map kcOf, ∀ c ∈ t, c ≠ '.' := by
    intro t ht c hc
    rcases (hkfacts t ht).2 c hc with rfl | hm | hm
    · decide
    · exact (lower_char_ne c hm).2.1
    · exact (digit_char_ne c hm).2.1
  have hpre : dataPre.isPrefixOf
      (dataPre ++ joinWith ['.'] ((splitOnChar '.' n).map kcOf)) = true :=
    isPrefixOf_append_self dataPre _
  rw [attributeNameToPropertyName_of_startsWith _ _ hpre, List.drop_left]
  have hJnodd : containsPair '.' '.' (joinWith ['.'] ((splitOnChar '.' n).map kcOf)) = false :=
    containsPair_joinWith '.' _ (fun t ht => ⟨(hkfacts t ht).1, hnodot t ht⟩)
  rw [replacePair_eq_self '.' '.' dotMarker _ hJnodd]
  have hmapne : (splitOnChar '.' n).map kcOf ≠ [] := by
    intro hmap
    exact hsegsne (List.map_eq_nil_iff.mp hmap)
  rw [splitOnChar_joinWith '.' _ hmapne hnodot]
  have hmapdec : ((splitOnChar '.' n).map kcOf).map decodeSegPart = splitOnChar '.' n := by
    rw [List.map_map]
    have hid : ∀ s ∈ splitOnChar '.' n, (decodeSegPart ∘ kcOf) s = id s :=
      fun s hs => decodeSegPart_kcOf s (halnum s hs)
    rw [List.map_congr_left hid, List.map_id]
  rw [hmapdec, joinWith_splitOnChar '.' n]
  have hnchars : ∀ c ∈ n, c ≠ '_' := by
    intro c hc
    have hc' : c ∈ joinWith ['.'] (splitOnChar '.' n) := by
      rw [joinWith_splitOnChar '.' n]
      exact hc
    rcases mem_joinWith '.' (splitOnChar '.' n) c hc' with rfl | ⟨s, hs, hcs⟩
    · decide
    · exact (alnum_ne c (halnum s hs c hcs)).2.2
  have hdm : dotMarker = '_' :: (("_DOT_MARKER__").toList) := by decide
  rw [hdm]
  exact replaceSeq_eq_self '_' _ _ n hnchars

/-- Witness for claim C1 at the concrete property name `"user.firstName"`. -/
theorem roundtrip_camelName_witness :
    isCamelName (("user.firstName").toList) = true
    ∧ attributeNameToPropertyName
        (propertyNameToAttributeName (("user.firstName").toList) dataPre) dataPre
      = ("user.firstName").toList :=
  ⟨by decide, roundtrip_camelName (("user.firstName").toList) (by decide)⟩

/-- Claim C3: `attributeNameToPropertyName` implements the
segment-then-subsplit hyphen-escape algorithm: within a dot-separated
segment, `"--"` escapes a literal hyphen, sub-parts of length 1 pass through
unchanged, longer sub-parts undergo kebab-to-camel conversion, and sub-parts
are rejoined with a single hyphen; consequently the double-, triple- and
quadruple-hyphen examples decode as stated. -/
theorem attributeNameToPropertyName_hyphen_escapes :
    attributeNameToPropertyName (("data-test-attr--nested").toList) dataPre
        = ("testAttr-nested").toList
    ∧ attributeNameToPropertyName (("data-test-attr---nested").toList) dataPre
        = ("testAttr-Nested").toList
    ∧ attributeNameToPropertyName (("data-test-attr----nested").toList) dataPre
        = ("testAttr--nested").toList := by
  refine ⟨by decide, by decide, by decide⟩

/-! ## More JS string primitives used by the directive grammars -/

/-- JS `s.indexOf(c)` (first occurrence; `none` models `-1`). -/
def indexOfChar (c : Char) : Str → Option Nat
  | [] => none
  | x :: rest => if x = c then some 0 else (indexOfChar c rest).map (· + 1)

/-- JS `s.lastIndexOf(c)` (last occurrence; `none` models `-1`). -/
def lastIndexOfChar (c : Char) : Str → Option Nat
  | [] => none
  | x :: rest =>
    match lastIndexOfChar c rest with
    | some i => some (i + 1)
    | none => if x = c then some 0 else none

/-- The whitespace characters removed by JS `s.trim()` (ASCII model; the
strings handled here contain no Unicode spaces). -/
def isJsWhitespace (c : Char) : Bool :=
  c = ' ' || c = '\t' || c = '\n' || c = '\r' || c = '\x0b' || c = '\x0c'

/-- JS `s.trim()`. -/
def trimStr (l : Str) : Str :=
  ((l.dropWhile isJsWhitespace).reverse.dropWhile isJsWhitespace).reverse

/-- The character `'` (single quote). -/
def singleQuoteChar : Char := Char.ofNat 39

/-- The character `"` (double quote). -/
def doubleQuoteChar : Char := Char.ofNat 34

/-- JS `s.startsWith(q) && s.endsWith(q)` for a one-character `q`. -/
def startsAndEndsWith (q : Char) (arg : Str) : Bool :=
  (arg.head? == some q) && (arg.getLast? == some q)

/-! ## The grammar of strings accepted by JS `Number(·)`
(`!isNaN(Number(arg))` in `parseModifiersString`) -/

def isDecDigit (c : Char) : Bool := decide (c ∈ digitChars)

def hexChars : Str := ("0123456789abcdefABCDEF").toList

def isHexDigit (c : Char) : Bool := decide (c ∈ hexChars)

def isOctDigit (c : Char) : Bool := decide (c ∈ (("01234567").toList))

def isBinDigit (c : Char) : Bool := c = '0' || c = '1'

/-- Strip an optional sign from an exponent body. -/
def expTail (r : Str) : Str :=
  match r with
  | [] => []
  | s :: t => if s = '+' || s = '-' then t else s :: t

/-- A decimal exponent part (`e`/`E`, optional sign, at least one digit),
or nothing at all. -/
def isExponentPart : Str → Bool
  | [] => true
  | e :: r =>
    (e == 'e' || e == 'E') && !(expTail r).isEmpty && (expTail r).all isDecDigit

/-- An unsigned `StrDecimalLiteral`: `Infinity`, or decimal digits with an
optional fraction and exponent, or a fraction with no integer part. -/
def isStrUnsignedDecimalLiteral (l : Str) : Bool :=
  if l = ("Infinity").toList then true
  else
    let intPart := l.takeWhile isDecDigit
    let r1 := l.dropWhile isDecDigit
    match r1 with
    | '.' :: r =>
      let frac := r.takeWhile isDecDigit
      let r2 := r.dropWhile isDecDigit
      (!intPart.isEmpty || !frac.isEmpty) && isExponentPart r2
    | _ => !intPart.isEmpty && isExponentPart r1

/-- A `NonDecimalIntegerLiteral`: `0x`/`0o`/`0b` followed by digits of the
corresponding base. -/
def isNonDecimalIntegerLiteral (l : Str) : Bool :=
  match l with
  | '0' :: x :: r =>
    ((x == 'x' || x == 'X') && !r.isEmpty && r.all isHexDigit) ||
    ((x == 'o' || x == 'O') && !r.isEmpty && r.all isOctDigit) ||
    ((x == 'b' || x == 'B') && !r.isEmpty && r.all isBinDigit)
  | _ => false

/-- Models `!isNaN(Number(s))`: after trimming, the string is empty (Number
gives `0`), or a signed decimal literal (including `Infinity`), or an
unsigned non-decimal integer literal. -/
def isJsNumericString (l : Str) : Bool :=
  match trimStr l with
  | [] => true
  | c :: r =>
    if c = '+' || c = '-' then isStrUnsignedDecimalLiteral r
    else isStrUnsignedDecimalLiteral (c :: r) || isNonDecimalIntegerLiteral (c :: r)

/-! ## Modifier grammar (`src/models/directive-parser/utils.js`) -/

/-- A coerced modifier argument.  `num s` denotes the JS number `Number(s)`,
carried by its numeral `s` (the trimmed source text); `bool` and `str` carry
the coerced boolean and string values. -/
inductive ModifierArg where
  | num (numeral : Str)
  | bool (b : Bool)
  | str (s : Str)
deriving DecidableEq

/-- The coercion applied to each comma-separated argument, in source order:
trim; a non-empty numeric string becomes a number; case-insensitive
`true`/`false` become booleans; a string wrapped in matching single or double
quotes is unquoted (`slice(1, -1)`); anything else stays a raw string. -/
def coerceArg (rawArg : Str) : ModifierArg :=
  let arg := trimStr rawArg
  if isJsNumericString arg && !arg.isEmpty then ModifierArg.num arg
  else if toLowerAll arg = ("true").toList then ModifierArg.bool true
  else if toLowerAll arg = ("false").toList then ModifierArg.bool false
  else if startsAndEndsWith singleQuoteChar arg || startsAndEndsWith doubleQuoteChar arg then
    ModifierArg.str (arg.drop 1).dropLast
  else ModifierArg.str arg

/-- The regex class `[A-Za-z0-9_-]` of modifier names. -/
def isModNameChar (c : Char) : Bool :=
  isAsciiLetter c || isAsciiDigit c || c = '_' || c = '-'

/-- The anchored regex match `([A-Za-z0-9_-]+)` optionally followed by a
parenthesised group not containing a close-parenthesis: returns the name and,
when the parenthesised group matched, its contents.  `none` models a failed
match (name empty). -/
def matchModifierToken (token : Str) : Option (Str × Option Str) :=
  let name := token.takeWhile isModNameChar
  if name.isEmpty then none
  else
    match token.drop name.length with
    | '(' :: r =>
      match indexOfChar ')' r with
      | some i => some (name, some (r.take i))
      | none => some (name, none)
    | _ => some (name, none)

/-- Source `parseModifiersString(str)`: split on `#`, discard empty tokens,
match each token against the modifier regex (non-matching tokens are
dropped), and coerce the comma-separated arguments of a non-empty
parenthesised group. -/
def parseModifiersString (str : Str) : List (Str × List ModifierArg) :=
  let tokens := (splitOnChar '#' str).filter (fun token => 0 < token.length)
  tokens.filterMap (fun token =>
    (matchModifierToken token).map (fun m =>
      let args :=
        match m.2 with
        | some g2 => if g2.isEmpty then [] else (splitOnChar ',' g2).map coerceArg
        | none => []
      (m.1, args)))

/-! ## DirectiveValue and the directive-value grammars -/

/-- JS `Map.set` on an insertion-ordered association list: an existing key is
updated in place, a new key is appended. -/
def mapSet {κ α : Type} [DecidableEq κ] (m : List (κ × α)) (k : κ) (v : α) : List (κ × α) :=
  if m.any (fun p => p.1 = k) then m.map (fun p => if p.1 = k then (k, v) else p)
  else m ++ [(k, v)]

/-- Source class `DirectiveValue` (`src/models/directive-value.js`); the
`eventModifiers` map is modelled as an insertion-ordered association list.
The getters `targetParts`/`domPropertyParts` are `propertyNameToPath` applied
to `target`/`domProperty` on each access and carry no further state. -/
structure DirectiveValue where
  target : Str
  domProperty : Str
  event : Str
  eventModifiers : List (Str × List ModifierArg)
deriving DecidableEq

/-- A freshly constructed `DirectiveValue` (all fields empty). -/
def DirectiveValue.new : DirectiveValue := ⟨[], [], [], []⟩

/-- The loop `for ([name, args] of modifiers) eventModifiers.set(name, args)`
starting from a fresh empty map. -/
def setAllModifiers (mods : List (Str × List ModifierArg)) : List (Str × List ModifierArg) :=
  mods.foldl (fun m p => mapSet m p.1 p.2) []

/-- Source `parseModelDirective(value)`
(`src/models/directive-parser/parsers/model-directive.js`): take the text
after the last `@` as `event`; in the remainder, the text after the first `#`
is the modifier chain; in what is left, the text before the first `:` is
`target` and the text after it `domProperty` (empty when there is no colon).
No trimming happens anywhere.  The modifier chain, when non-empty, is parsed
with `parseModifiersString` and folded into `eventModifiers`. -/
def parseModelDirective (value : Str) : DirectiveValue :=
  let rest := value
  let step1 :=
    match lastIndexOfChar '@' rest with
    | some atIndex => (rest.drop (atIndex + 1), rest.take atIndex)
    | none => ([], rest)
  let event := step1.1
  let rest := step1.2
  let step2 :=
    match indexOfChar '#' rest with
    | some hashIndex => (rest.drop (hashIndex + 1), rest.take hashIndex)
    | none => ([], rest)
  let modifiersStr := step2.1
  let rest := step2.2
  let step3 :=
    match indexOfChar ':' rest with
    | some colonIndex => (rest.take colonIndex, rest.drop (colonIndex + 1))
    | none => (rest, [])
  let target := step3.1
  let domProperty := step3.2
  let eventModifiers :=
    if modifiersStr.isEmpty then [] else setAllModifiers (parseModifiersString modifiersStr)
  ⟨target, domProperty, event, eventModifiers⟩

/-- The regex class `[A-Za-z0-9_.$\Hyphen]` of the simple-grammar target
(the leading `+`-group of the target regex; its second group adds nothing,
as it may be empty and excludes only the dot). -/
def isSimpleTargetChar (c : Char) : Bool :=
  isAsciiLetter c || isAsciiDigit c || c = '_' || c = '.' || c = '$' || c = '-'

/-- Source `parseDirectiveValue(value)`
(`src/models/directive-parser/utils.js`), the simple grammar
`target[#modifiers]`: trim, take the longest prefix of target characters as
`target` (when non-empty, consume it), then a `#`-led remainder is the
modifier chain.  The two `console.warn` diagnostics of this function
(unexpected trailing characters; unparsable target) do not affect the
returned value and are not modelled. -/
def parseDirectiveValue (value : Str) : DirectiveValue :=
  let rest := trimStr value
  let target := rest.takeWhile isSimpleTargetChar
  let rest := if target.isEmpty then rest else rest.drop target.length
  let eventModifiers :=
    match rest with
    | '#' :: r => setAllModifiers (parseModifiersString r)
    | _ => []
  ⟨target, [], [], eventModifiers⟩

/-! ## Sanity checks for the grammars (mirroring the source's test suite) -/

example : parseModelDirective (("user.name").toList)
    = ⟨("user.name").toList, [], [], []⟩ := by decide

example : parseModelDirective ([])
    = ⟨[], [], [], []⟩ := by decide

example : coerceArg (("300").toList) = ModifierArg.num (("300").toList) := by decide

example : coerceArg (("TRUE").toList) = ModifierArg.bool true := by decide

example : coerceArg ((" false ").toList) = ModifierArg.bool false := by decide

example : parseDirectiveValue ((" user.name#debounce(300) ").toList)
    = ⟨("user.name").toList, [], [],
        [((("debounce").toList), [ModifierArg.num (("300").toList)])]⟩ := by decide

example : parseDirectiveValue ((" user.name #debounce(300) ").toList)
    = ⟨("user.name").toList, [], [], []⟩ := by decide

/-! ## Lemmas for the directive-value grammars -/

theorem indexOfChar_not_mem (c : Char) : ∀ l : Str, c ∉ l → indexOfChar c l = none
  | [], _ => rfl
  | x :: rest, h => by
    have hx : ¬ x = c := fun he => h (by simp [he])
    simp [indexOfChar, hx, indexOfChar_not_mem c rest (fun hm => h (by simp [hm]))]

theorem lastIndexOfChar_not_mem (c : Char) : ∀ l : Str, c ∉ l → lastIndexOfChar c l = none
  | [], _ => rfl
  | x :: rest, h => by
    have hx : ¬ x = c := fun he => h (by simp [he])
    simp [lastIndexOfChar, hx, lastIndexOfChar_not_mem c rest (fun hm => h (by simp [hm]))]

theorem indexOfChar_append_first (c : Char) : ∀ (u v : Str), c ∉ u →
    indexOfChar c (u ++ c :: v) = some u.length
  | [], v, _ => by simp [indexOfChar]
  | x :: u', v, h => by
    have hx : ¬ x = c := fun he => h (by simp [he])
    have ih := indexOfChar_append_first c u' v (fun hm => h (by simp [hm]))
    simp [indexOfChar, hx, ih]

theorem lastIndexOfChar_append_last (c : Char) : ∀ (u v : Str), c ∉ v →
    lastIndexOfChar c (u ++ c :: v) = some u.length
  | [], v, h => by
    simp [lastIndexOfChar, lastIndexOfChar_not_mem c v h]
  | x :: u', v, h => by
    have ih := lastIndexOfChar_append_last c u' v h
    simp [lastIndexOfChar, ih]

theorem drop_append_length_succ (u : Str) (x : Char) (v : Str) :
    (u ++ x :: v).drop (u.length + 1) = v := by
  have h : u ++ x :: v = (u ++ [x]) ++ v := by simp
  have h2 : u.length + 1 = (u ++ [x]).length := by simp
  rw [h, h2, List.drop_left]

theorem splitOnChar_eq_single (sep : Char) (l : Str) (h : ∀ c ∈ l, c ≠ sep) :
    splitOnChar sep l = [l] := by
  have h0 := splitOnChar_append sep l [] h [] [] rfl
  simpa using h0

theorem takeWhile_append_stop (p : Char → Bool) : ∀ (u : Str), (∀ c ∈ u, p c = true) →
    ∀ (x : Char) (v : Str), p x = false →
    (u ++ x :: v).takeWhile p = u
  | [], _, x, v, hx => by simp [List.takeWhile, hx]
  | c :: u', h, x, v, hx => by
    have ih := takeWhile_append_stop p u' (fun y hy => h y (by simp [hy])) x v hx
    simp [List.takeWhile, h c (by simp), ih]

/-- Helper for claim C2: the full-form decomposition of a model-directive
value around its last `@`, first `#` and first `:`. -/
theorem parseModelDirective_parts (a b c d : Str) (hd : '@' ∉ d) (ha1 : '#' ∉ a)
    (hb1 : '#' ∉ b) (ha2 : ':' ∉ a) :
    parseModelDirective (a ++ ':' :: (b ++ '#' :: (c ++ '@' :: d)))
      = ⟨a, b, d, setAllModifiers (parseModifiersString c)⟩ := by
  have hval : a ++ ':' :: (b ++ '#' :: (c ++ '@' :: d))
      = (a ++ ':' :: (b ++ '#' :: c)) ++ '@' :: d := by simp
  have h1 : lastIndexOfChar '@' (a ++ ':' :: (b ++ '#' :: (c ++ '@' :: d)))
      = some (a ++ ':' :: (b ++ '#' :: c)).length := by
    rw [hval]
    exact lastIndexOfChar_append_last '@' _ d hd
  have h1d : (a ++ ':' :: (b ++ '#' :: (c ++ '@' :: d))).drop
      ((a ++ ':' :: (b ++ '#' :: c)).length + 1) = d := by
    rw [hval]
    exact drop_append_length_succ _ '@' d
  have h1t : (a ++ ':' :: (b ++ '#' :: (c ++ '@' :: d))).take
      (a ++ ':' :: (b ++ '#' :: c)).length = a ++ ':' :: (b ++ '#' :: c) := by
    rw [hval]
    exact List.take_left _ _
  have hu2 : a ++ ':' :: (b ++ '#' :: c) = (a ++ ':' :: b) ++ '#' :: c := by simp
  have hns : '#' ∉ a ++ ':' :: b := by
    intro hmem
    rcases List.mem_append.mp hmem with hmem | hmem
    · exact ha1 hmem
    · rcases List.mem_cons.mp hmem with hmem | hmem
      · exact absurd hmem.symm (by decide)
      · exact hb1 hmem
  have h2 : indexOfChar '#' (a ++ ':' :: (b ++ '#' :: c)) = some (a ++ ':' :: b).length := by
    rw [hu2]
    exact indexOfChar_append_first '#' _ c hns
  have h2m : (a ++ ':' :: (b ++ '#' :: c)).drop ((a ++ ':' :: b).length + 1) = c := by
    rw [hu2]
    exact drop_append_length_succ _ '#' c
  have h2r : (a ++ ':' :: (b ++ '#' :: c)).take (a ++ ':' :: b).length = a ++ ':' :: b := by
    rw [hu2]
    exact List.take_left _ _
  have h3 : indexOfChar ':' (a ++ ':' :: b) = some a.length :=
    indexOfChar_append_first ':' a b ha2
  have h3t : (a ++ ':' :: b).take a.length = a := List.take_left _ _
  have h3d : (a ++ ':' :: b).drop (a.length + 1) = b := drop_append_length_succ a ':' b
  simp only [parseModelDirective, h1, h1d, h1t, h2, h2m, h2r, h3, h3t, h3d]
  cases c with
  | nil => simp [setAllModifiers, parseModifiersString, splitOnChar, List.filter]
  | cons c0 cs => simp [List.isEmpty]

/-- Claim C2: `parseModelDirective` splits its input in this exact order with
no trimming: the text after the last `@` is `event`; in the remainder, the
text after the first `#` is the modifier chain; in what is left, the text
before the first `:` is `target` and the text after it `domProperty`
(`domProperty` empty when no colon is present); and the spec's concrete
example parses as stated. -/
theorem parseModelDirective_spec :
    (∀ (a b c d : Str), '@' ∉ d → '#' ∉ a → '#' ∉ b → ':' ∉ a →
      parseModelDirective (a ++ ':' :: (b ++ '#' :: (c ++ '@' :: d)))
        = ⟨a, b, d, setAllModifiers (parseModifiersString c)⟩)
    ∧ (∀ t : Str, '@' ∉ t → '#' ∉ t → ':' ∉ t → parseModelDirective t = ⟨t, [], [], []⟩)
    ∧ parseModelDirective (("form.email:value#debounce(400)@input").toList)
        = ⟨("form.email").toList, ("value").toList, ("input").toList,
            [((("debounce").toList), [ModifierArg.num (("400").toList)])]⟩ := by
  refine ⟨parseModelDirective_parts, ?_, by decide⟩
  intro t h1 h2 h3
  have e1 : lastIndexOfChar '@' t = none := lastIndexOfChar_not_mem '@' t h1
  have e2 : indexOfChar '#' t = none := indexOfChar_not_mem '#' t h2
  have e3 : indexOfChar ':' t = none := indexOfChar_not_mem ':' t h3
  simp [parseModelDirective, e1, e2, e3]

/-- Witness for claim C2 at the spec's concrete model-directive value. -/
theorem parseModelDirective_spec_witness :
    parseModelDirective ((("form.email").toList) ++ ':' ::
        ((("value").toList) ++ '#' :: ((("debounce(400)").toList) ++ '@' :: (("input").toList))))
      = ⟨("form.email").toList, ("value").toList, ("input").toList,
          [((("debounce").toList), [ModifierArg.num (("400").toList)])]⟩ := by
  have h := parseModelDirective_spec.1 (("form.email").toList) (("value").toList)
    (("debounce(400)").toList) (("input").toList) (by decide) (by decide) (by decide) (by decide)
  rw [h]
  decide

/-- Helper for claim C4: the anchored regex match on a well-formed token
`name(args)` yields the name and the parenthesised group. -/
theorem matchModifierToken_wf (name args : Str)
    (hn : ∀ ch ∈ name, isModNameChar ch = true) (hne : name ≠ [])
    (hargs1 : ')' ∉ args) :
    matchModifierToken (name ++ '(' :: (args ++ [')'])) = some (name, some args) := by
  obtain ⟨n0, nm, rfl⟩ := List.exists_cons_of_ne_nil hne
  have htw : ((n0 :: nm) ++ '(' :: (args ++ [')'])).takeWhile isModNameChar = n0 :: nm :=
    takeWhile_append_stop isModNameChar (n0 :: nm) hn '(' (args ++ [')']) (by decide)
  have hdrop : ((n0 :: nm) ++ '(' :: (args ++ [')'])).drop (n0 :: nm).length
      = '(' :: (args ++ [')']) := List.drop_left _ _
  have hidx : indexOfChar ')' (args ++ [')']) = some args.length :=
    indexOfChar_append_first ')' args [] hargs1
  have htake : (args ++ [')']).take args.length = args := List.take_left args [')']
  unfold matchModifierToken
  rw [htw]
  simp only [List.isEmpty, hdrop, hidx, htake]
  rfl

/-- Helper for claim C4: a single well-formed token `name(args)` parses to
one modifier with its comma-separated arguments coerced. -/
theorem parseModifiersString_token (name args : Str)
    (hn : ∀ ch ∈ name, isModNameChar ch = true) (hne : name ≠ [])
    (hargs1 : ')' ∉ args) (hargs2 : '#' ∉ args) (hargs3 : args ≠ []) :
    parseModifiersString (name ++ '(' :: (args ++ [')']))
      = [(name, (splitOnChar ',' args).map coerceArg)] := by
  have hnohash : ∀ ch ∈ name ++ '(' :: (args ++ [')']), ch ≠ '#' := by
    intro ch hmem
    rcases List.mem_append.mp hmem with hmem | hmem
    · intro he
      have := hn ch hmem
      rw [he] at this
      exact absurd this (by decide)
    · rcases List.mem_cons.mp hmem with rfl | hmem
      · decide
      · rcases List.mem_append.mp hmem with hmem | hmem
        · exact fun he => hargs2 (he ▸ hmem)
        · rcases List.mem_cons.mp hmem with rfl | hmem
          · decide
          · exact absurd hmem (List.not_mem_nil ch)
  have hsplit : splitOnChar '#' (name ++ '(' :: (args ++ [')']))
      = [name ++ '(' :: (args ++ [')'])] := splitOnChar_eq_single '#' _ hnohash
  have hmt := matchModifierToken_wf name args hn hne hargs1
  obtain ⟨n0, nm, rfl⟩ := List.exists_cons_of_ne_nil hne
  obtain ⟨a0, am, rfl⟩ := List.exists_cons_of_ne_nil hargs3
  simp only [List.cons_append] at hsplit hmt ⊢
  simp only [parseModifiersString, hsplit, List.filter]
  simp [List.filterMap_cons, List.filterMap_nil, hmt, List.isEmpty]

/-- Claim C4: `parseModifiersString` splits on `#` discarding empty tokens
(so a leading `#` never matters); a well-formed token `name(args)` yields one
`(name, coerced args)` pair with arguments trimmed and coerced number-first,
then boolean, then quote-stripping, else raw; non-matching tokens are
silently dropped; encounter order is preserved; and later duplicate names
overwrite earlier ones when folded into the `eventModifiers` map. -/
theorem parseModifiersString_spec :
    (∀ s : Str, parseModifiersString ('#' :: s) = parseModifiersString s)
    ∧ (∀ name args : Str, (∀ ch ∈ name, isModNameChar ch = true) → name ≠ [] →
        ')' ∉ args → '#' ∉ args → args ≠ [] →
        parseModifiersString (name ++ '(' :: (args ++ [')']))
          = [(name, (splitOnChar ',' args).map coerceArg)])
    ∧ parseModifiersString (("debounce(300,100)").toList)
        = [((("debounce").toList),
            [ModifierArg.num (("300").toList), ModifierArg.num (("100").toList)])]
    ∧ parseModifiersString (("(bad)#debounce(400)").toList)
        = [((("debounce").toList), [ModifierArg.num (("400").toList)])]
    ∧ parseModifiersString (("stop#prevent").toList)
        = [((("stop").toList), []), ((("prevent").toList), [])]
    ∧ coerceArg ((" 42 ").toList) = ModifierArg.num (("42").toList)
    ∧ coerceArg (("TRUE").toList) = ModifierArg.bool true
    ∧ coerceArg (("\x27300\x27").toList) = ModifierArg.str (("300").toList)
    ∧ coerceArg (("hello").toList) = ModifierArg.str (("hello").toList)
    ∧ setAllModifiers
        [((("m").toList), [ModifierArg.num (("1").toList)]),
         ((("m").toList), [ModifierArg.num (("2").toList)])]
        = [((("m").toList), [ModifierArg.num (("2").toList)])] := by
  refine ⟨?_, fun name args h1 h2 h3 h4 h5 => parseModifiersString_token name args h1 h2 h3 h4 h5,
    by decide, by decide, by decide, by decide, by decide, by decide, by decide, by decide⟩
  intro s
  simp only [parseModifiersString, splitOnChar_cons_eq]
  simp [List.filter]

/-- Witness for claim C4: the leading-`#` law and the well-formed-token law
instantiated at the spec's `debounce(300,100)` example. -/
theorem parseModifiersString_spec_witness :
    parseModifiersString ('#' :: ("debounce(400)").toList)
      = parseModifiersString (("debounce(400)").toList)
    ∧ parseModifiersString ((("debounce").toList) ++ '(' :: ((("300,100").toList) ++ [')']))
      = [((("debounce").toList),
          [ModifierArg.num (("300").toList), ModifierArg.num (("100").toList)])] := by
  constructor
  · exact parseModifiersString_spec.1 (("debounce(400)").toList)
  · have h := parseModifiersString_spec.2.1 (("debounce").toList) (("300,100").toList)
      (by decide) (by decide) (by decide) (by decide) (by decide)
    rw [h]
    decide

/-! ## Element scanner (`src/models/directive-parser/utils.js`, `constants.js`,
`src/utils/validators.js`, `src/utils/dom.js`) -/

def PREFIX_ATTRIBUTE : Str := ("data-a-").toList

def PREFIX_PROPERTY : Str := ("data-p-").toList

def PREFIX_BEHAVIOR : Str := ("data-b-").toList

def PREFIX_MODEL : Str := ("data-m").toList

def PREFIX_CLASS : Str := ("data-c").toList

/-- Source class `ClassDirectiveValue` (`src/models/class-directive-value.js`);
`reactiveClasses` is an insertion-ordered association list, `computedClass`
is `null` (`none`) unless set. -/
structure ClassDirectiveValue where
  reactiveClasses : List (Str × DirectiveValue)
  computedClass : Option DirectiveValue
deriving DecidableEq

/-- The `console.warn` diagnostics the claims mention, carried as data:
the class-form conflict (with the ignored `data-c-*` attribute names) and the
model-directive eligibility warning (with the element's tag and type). -/
inductive Diag where
  | classConflict (ignored : List Str)
  | modelNotValid (tag : Str) (ty : Str)
deriving DecidableEq

/-- Source `parseAttributeDirective` delegates to `parseDirectiveValue`. -/
def parseAttributeDirective (value : Str) : DirectiveValue := parseDirectiveValue value

/-- Source `parsePropertyDirective` delegates to `parseDirectiveValue`. -/
def parsePropertyDirective (value : Str) : DirectiveValue := parseDirectiveValue value

/-- Source `parseBehaviorDirective` delegates to `parseDirectiveValue`. -/
def parseBehaviorDirective (value : Str) : DirectiveValue := parseDirectiveValue value

/-- Source `parseClassDirectives(attributes)`
(`src/models/directive-parser/parsers/class-directive.js`): when `data-c` is
present with a non-empty trimmed value, build `computedClass` from it, leave
`reactiveClasses` empty, and warn about any `data-c-*` attributes; otherwise
collect the `data-c-*` attributes into `reactiveClasses`. -/
def parseClassDirectives (attributes : List (Str × Str)) : ClassDirectiveValue × List Diag :=
  let hasDataC := attributes.any (fun p => p.1 = PREFIX_CLASS)
  let dataCValue := if hasDataC then trimStr ((attributes.lookup PREFIX_CLASS).getD []) else []
  let dataCStarAttributes :=
    (attributes.filter (fun p => (PREFIX_CLASS ++ ['-']).isPrefixOf p.1)).map (fun p => p.1)
  if hasDataC ∧ 0 < dataCValue.length then
    (⟨[], some (parseDirectiveValue dataCValue)⟩,
      if 0 < dataCStarAttributes.length then [Diag.classConflict dataCStarAttributes] else [])
  else
    (⟨attributes.foldl (fun acc p =>
        if (PREFIX_CLASS ++ ['-']).isPrefixOf p.1 then
          mapSet acc (p.1.drop (PREFIX_CLASS.length + 1)) (parseDirectiveValue p.2)
        else acc) [], none⟩, [])

/-- A DOM element as the scanner sees it: tag name, the `type` property
(empty when the element has none — the source reads `element.type || ''`),
the `contentEditable` property, and the ordered attribute map that
`getElementAttrs` would return. -/
structure ElementModel where
  tagName : Str
  type : Str
  contentEditable : Str
  attrs : List (Str × Str)

/-- JS `element.getAttribute(name)` (`null` modelled as `none`). -/
def getAttribute (e : ElementModel) (name : Str) : Option Str := e.attrs.lookup name

/-- The fixed `INPUT` type allow-list of `isValidForTwoWayBinding`. -/
def supportedInputTypes : List Str :=
  [("text").toList, ("password").toList, ("email").toList, ("search").toList,
   ("tel").toList, ("url").toList, ("number").toList, ("range").toList,
   ("date").toList, ("time").toList, ("month").toList, ("week").toList,
   ("datetime-local").toList, ("color").toList, ("checkbox").toList, ("radio").toList]

/-- Source `isValidForTwoWayBinding(element)` (`src/utils/validators.js`):
`TEXTAREA`/`SELECT` always; `INPUT` only with a type from the allow-list
(returning there, before the later checks); otherwise `contentEditable`
equal to `"true"` or attribute `role="textbox"`. -/
def isValidForTwoWayBinding (element : ElementModel) : Bool :=
  if element.tagName = ("TEXTAREA").toList ∨ element.tagName = ("SELECT").toList then true
  else if element.tagName = ("INPUT").toList then supportedInputTypes.contains element.type
  else if element.contentEditable = ("true").toList then true
  else if getAttribute element (("role").toList) = some (("textbox").toList) then true
  else false

/-- Source class `ParsedDirectives` (`src/models/parsed-directives.js`). -/
structure ParsedDirectives where
  attributeDirectives : List (Str × DirectiveValue)
  propertyDirectives : List (Str × DirectiveValue)
  behaviorDirectives : List (Str × DirectiveValue)
  modelDirective : Option DirectiveValue
  classDirective : Option ClassDirectiveValue
deriving DecidableEq

/-- A freshly constructed `ParsedDirectives` (all categories empty). -/
def ParsedDirectives.empty : ParsedDirectives := ⟨[], [], [], none, none⟩

/-- The fixed lookup table of `isNativePropertyName` (`src/utils/dom.js`). -/
def nativeProps : List (Str × Str) :=
  [((("contenteditable").toList), (("contentEditable").toList)),
   ((("innerhtml").toList), (("innerHTML").toList)),
   ((("innertext").toList), (("innerText").toList)),
   ((("outerhtml").toList), (("outerHTML").toList)),
   ((("outertext").toList), (("outerText").toList)),
   ((("classname").toList), (("className").toList)),
   ((("textcontent").toList), (("textContent").toList))]

/-- Source `isNativePropertyName(name, prefix)` (`src/utils/dom.js`): strip
the prefix if present, lowercase, then the fixed table or a capability probe
against `window.Element.prototype`; the ambient prototype surface is passed
explicitly as `protoProps`.  `false` is modelled as `none`. -/
def isNativePropertyName (protoProps : Str → Bool) (name : Str) (pre : Str) : Option Str :=
  let result := if pre.isPrefixOf name then name.drop pre.length else name
  let result := toLowerAll result
  match nativeProps.lookup result with
  | some v => some v
  | none => if protoProps result then some result else none

/-- One iteration of the attribute loop of `parseDirectives`: classify the
attribute by prefix (in source order: `data-a-`, `data-p-`, `data-b-`, exact
`data-m`, `data-c`/`data-c-*`) and update the accumulated
(directives, hasClassDirective, diagnostics). -/
def scanStep (protoProps : Str → Bool) (element : ElementModel)
    (acc : ParsedDirectives × Bool × List Diag) (p : Str × Str) :
    ParsedDirectives × Bool × List Diag :=
  let dirs := acc.1
  let hasC := acc.2.1
  let ds := acc.2.2
  if PREFIX_ATTRIBUTE.isPrefixOf p.1 then
    let v := mapSet dirs.attributeDirectives (p.1.drop PREFIX_ATTRIBUTE.length)
      (parseAttributeDirective p.2)
    ({ dirs with attributeDirectives := v }, hasC, ds)
  else if PREFIX_PROPERTY.isPrefixOf p.1 then
    match isNativePropertyName protoProps p.1 PREFIX_PROPERTY with
    | some nativeProp =>
      let v := mapSet dirs.propertyDirectives nativeProp (parseDirectiveValue p.2)
      ({ dirs with propertyDirectives := v }, hasC, ds)
    | none =>
      let v := mapSet dirs.propertyDirectives (attributeNameToPropertyName p.1 PREFIX_PROPERTY)
        (parsePropertyDirective p.2)
      ({ dirs with propertyDirectives := v }, hasC, ds)
  else if PREFIX_BEHAVIOR.isPrefixOf p.1 then
    let v := mapSet dirs.behaviorDirectives (p.1.drop PREFIX_BEHAVIOR.length)
      (parseBehaviorDirective p.2)
    ({ dirs with behaviorDirectives := v }, hasC, ds)
  else if p.1 = PREFIX_MODEL then
    if ¬ isValidForTwoWayBinding element then
      (dirs, hasC, ds ++ [Diag.modelNotValid element.tagName element.type])
    else
      ({ dirs with modelDirective := some (parseModelDirective p.2) }, hasC, ds)
  else if (PREFIX_CLASS ++ ['-']).isPrefixOf p.1 ∨ p.1 = PREFIX_CLASS then
    (dirs, true, ds)
  else
    (dirs, hasC, ds)

/-- Source `parseDirectives(element)`
(`src/models/directive-parser/utils.js`): fold the attribute loop over the
element's attributes, then, when some class-directive-shaped attribute was
seen, run the dedicated class pass over the full attribute map. -/
def parseDirectives (protoProps : Str → Bool) (element : ElementModel) :
    ParsedDirectives × List Diag :=
  let attributes := element.attrs
  let folded := attributes.foldl (scanStep protoProps element) (ParsedDirectives.empty, false, [])
  if folded.2.1 then
    let cd := parseClassDirectives attributes
    ({ folded.1 with classDirective := some cd.1 }, folded.2.2 ++ cd.2)
  else (folded.1, folded.2.2)

/-! ## Claims about the scanner -/

/-- Helper for claim C5: either the computed-class branch was taken (empty
`reactiveClasses`) or the reactive branch was (no `computedClass`). -/
theorem parseClassDirectives_cases (attributes : List (Str × Str)) :
    (parseClassDirectives attributes).1.reactiveClasses = []
    ∨ (parseClassDirectives attributes).1.computedClass = none := by
  simp only [parseClassDirectives]
  split <;> split <;> simp

/-- Claim C5: the scanner's class-directive result is mutually exclusive by
construction — whenever `computedClass` is present, `reactiveClasses` is
empty — and an element with both `data-c="cls"` and `data-c-active=...`
yields `computedClass` built from `"cls"`, empty `reactiveClasses`, and a
conflict diagnostic naming the ignored `data-c-*` attribute. -/
theorem parseClassDirectives_spec :
    (∀ (attributes : List (Str × Str)) (dv : DirectiveValue),
      (parseClassDirectives attributes).1.computedClass = some dv →
      (parseClassDirectives attributes).1.reactiveClasses = [])
    ∧ parseClassDirectives
        [((("data-c").toList), (("cls").toList)),
         ((("data-c-active").toList), (("isActive").toList))]
      = (⟨[], some ⟨("cls").toList, [], [], []⟩⟩,
         [Diag.classConflict [("data-c-active").toList]]) := by
  constructor
  · intro attributes dv h
    rcases parseClassDirectives_cases attributes with hr | hc
    · exact hr
    · rw [hc] at h
      exact absurd h (by simp)
  · decide

/-- Witness for claim C5 at the conflicting concrete attribute map. -/
theorem parseClassDirectives_spec_witness :
    (parseClassDirectives
      [((("data-c").toList), (("cls").toList)),
       ((("data-c-active").toList), (("isActive").toList))]).1.reactiveClasses = [] :=
  parseClassDirectives_spec.1 _ ⟨("cls").toList, [], [], []⟩ (by decide)

/-- Helper for claim C6: the exact characterisation of
`isValidForTwoWayBinding` (the `INPUT` allow-list check returns before the
`contentEditable` and `role` checks). -/
theorem isValidForTwoWayBinding_iff (e : ElementModel) :
    isValidForTwoWayBinding e = true ↔
      (e.tagName = ("TEXTAREA").toList ∨ e.tagName = ("SELECT").toList
       ∨ (e.tagName = ("INPUT").toList ∧ e.type ∈ supportedInputTypes)
       ∨ (e.tagName ≠ ("TEXTAREA").toList ∧ e.tagName ≠ ("SELECT").toList
           ∧ e.tagName ≠ ("INPUT").toList
           ∧ (e.contentEditable = ("true").toList
              ∨ getAttribute e (("role").toList) = some (("textbox").toList)))) := by
  unfold isValidForTwoWayBinding
  split_ifs with h1 h2 h3 h4
  · refine iff_of_true rfl ?_
    rcases h1 with h | h
    · exact Or.inl h
    · exact Or.inr (Or.inl h)
  · push_neg at h1
    have hmem : (supportedInputTypes.contains e.type = true) ↔ e.type ∈ supportedInputTypes := by
      simp [List.contains]
    rw [hmem]
    constructor
    · intro hm
      exact Or.inr (Or.inr (Or.inl ⟨h2, hm⟩))
    · rintro (hA | hB | ⟨_, hm⟩ | ⟨_, _, hni, _⟩)
      · exact absurd hA h1.1
      · exact absurd hB h1.2
      · exact hm
      · exact absurd h2 hni
  · push_neg at h1
    exact iff_of_true rfl (Or.inr (Or.inr (Or.inr ⟨h1.1, h1.2, h2, Or.inl h3⟩)))
  · push_neg at h1
    exact iff_of_true rfl (Or.inr (Or.inr (Or.inr ⟨h1.1, h1.2, h2, Or.inr h4⟩)))
  · push_neg at h1
    refine iff_of_false (by simp) ?_
    rintro (hA | hB | ⟨hi, _⟩ | ⟨_, _, _, hce | hrole⟩)
    · exact h1.1 hA
    · exact h1.2 hB
    · exact h2 hi
    · exact h3 hce
    · exact h4 hrole

/-- Helper for claim C6: no single scanner step changes `modelDirective`
when the element is ineligible for two-way binding. -/
theorem scanStep_model_of_invalid (pp : Str → Bool) (e : ElementModel)
    (hv : isValidForTwoWayBinding e = false)
    (acc : ParsedDirectives × Bool × List Diag) (p : Str × Str) :
    (scanStep pp e acc p).1.modelDirective = acc.1.modelDirective := by
  simp only [scanStep]
  split_ifs <;> first
    | rfl
    | (cases isNativePropertyName pp p.1 PREFIX_PROPERTY <;> rfl)
    | simp_all

theorem foldl_model_of_invalid (pp : Str → Bool) (e : ElementModel)
    (hv : isValidForTwoWayBinding e = false) :
    ∀ (l : List (Str × Str)) (acc : ParsedDirectives × Bool × List Diag),
    (l.foldl (scanStep pp e) acc).1.modelDirective = acc.1.modelDirective
  | [], _ => rfl
  | p :: l', acc => by
    rw [List.foldl_cons, foldl_model_of_invalid pp e hv l' _,
      scanStep_model_of_invalid pp e hv acc p]

/-- Helper for claim C6: an ineligible element never receives a stored model
directive. -/
theorem parseDirectives_model_of_invalid (pp : Str → Bool) (e : ElementModel)
    (hv : isValidForTwoWayBinding e = false) :
    (parseDirectives pp e).1.modelDirective = none := by
  have hfold := foldl_model_of_invalid pp e hv e.attrs (ParsedDirectives.empty, false, [])
  simp only [parseDirectives]
  split
  · exact hfold
  · exact hfold

theorem scanStep_diags_mono (pp : Str → Bool) (e : ElementModel)
    (acc : ParsedDirectives × Bool × List Diag) (p : Str × Str) (d : Diag)
    (hd : d ∈ acc.2.2) : d ∈ (scanStep pp e acc p).2.2 := by
  simp only [scanStep]
  split_ifs <;> first
    | exact hd
    | (cases isNativePropertyName pp p.1 PREFIX_PROPERTY <;> exact hd)
    | exact List.mem_append_left _ hd

theorem foldl_diags_mono (pp : Str → Bool) (e : ElementModel) :
    ∀ (l : List (Str × Str)) (acc : ParsedDirectives × Bool × List Diag) (d : Diag),
    d ∈ acc.2.2 → d ∈ (l.foldl (scanStep pp e) acc).2.2
  | [], _, _, hd => hd
  | p :: l', acc, d, hd =>
    foldl_diags_mono pp e l' (scanStep pp e acc p) d (scanStep_diags_mono pp e acc p d hd)

theorem foldl_model_diag (pp : Str → Bool) (e : ElementModel)
    (hv : isValidForTwoWayBinding e = false) :
    ∀ (l : List (Str × Str)) (acc : ParsedDirectives × Bool × List Diag) (v : Str),
    (PREFIX_MODEL, v) ∈ l →
    Diag.modelNotValid e.tagName e.type ∈ (l.foldl (scanStep pp e) acc).2.2
  | [], _, _, h => absurd h (List.not_mem_nil _)
  | p :: l', acc, v, h => by
    rcases List.mem_cons.mp h with he | h'
    · rw [List.foldl_cons]
      apply foldl_diags_mono
      rw [← he]
      have e1 : PREFIX_ATTRIBUTE.isPrefixOf PREFIX_MODEL = false := by decide
      have e2 : PREFIX_PROPERTY.isPrefixOf PREFIX_MODEL = false := by decide
      have e3 : PREFIX_BEHAVIOR.isPrefixOf PREFIX_MODEL = false := by decide
      simp [scanStep, e1, e2, e3, hv]
    · rw [List.foldl_cons]
      exact foldl_model_diag pp e hv l' _ v h'

/-- Helper for claim C6: an ineligible element carrying a `data-m` attribute
gets the eligibility diagnostic naming its tag and type. -/
theorem parseDirectives_model_diag (pp : Str → Bool) (e : ElementModel) (v : Str)
    (hv : isValidForTwoWayBinding e = false) (hmem : (PREFIX_MODEL, v) ∈ e.attrs) :
    Diag.modelNotValid e.tagName e.type ∈ (parseDirectives pp e).2 := by
  have h := foldl_model_diag pp e hv e.attrs (ParsedDirectives.empty, false, []) v hmem
  simp only [parseDirectives]
  split
  · exact List.mem_append_left _ h
  · exact h

/-- Helper for claim C6: an eligible element whose attribute map is a single
`data-m` attribute gets the parsed model directive stored. -/
theorem parseDirectives_model_stores (pp : Str → Bool) (tag ty ce v : Str)
    (hv : isValidForTwoWayBinding ⟨tag, ty, ce, [(PREFIX_MODEL, v)]⟩ = true) :
    (parseDirectives pp ⟨tag, ty, ce, [(PREFIX_MODEL, v)]⟩).1.modelDirective
      = some (parseModelDirective v) := by
  have e1 : PREFIX_ATTRIBUTE.isPrefixOf PREFIX_MODEL = false := by decide
  have e2 : PREFIX_PROPERTY.isPrefixOf PREFIX_MODEL = false := by decide
  have e3 : PREFIX_BEHAVIOR.isPrefixOf PREFIX_MODEL = false := by decide
  simp [parseDirectives, List.foldl_cons, List.foldl_nil, scanStep, e1, e2, e3, hv]

/-- Claim C6: the scanner stores a model directive only for elements eligible
for two-way binding — `TEXTAREA`/`SELECT` always, `INPUT` exactly for the
fixed type allow-list (decided before the `contentEditable`/`role` checks),
otherwise `contentEditable="true"` or `role="textbox"`; an ineligible
element's model directive is dropped (stays `none`) with a diagnostic naming
the tag and type; an eligible element's `data-m` value is parsed and stored;
and an `INPUT` of type `button` with `data-m` concretely yields no model
directive plus the diagnostic. -/
theorem modelDirective_eligibility :
    (∀ e : ElementModel, isValidForTwoWayBinding e = true ↔
      (e.tagName = ("TEXTAREA").toList ∨ e.tagName = ("SELECT").toList
       ∨ (e.tagName = ("INPUT").toList ∧ e.type ∈ supportedInputTypes)
       ∨ (e.tagName ≠ ("TEXTAREA").toList ∧ e.tagName ≠ ("SELECT").toList
           ∧ e.tagName ≠ ("INPUT").toList
           ∧ (e.contentEditable = ("true").toList
              ∨ getAttribute e (("role").toList) = some (("textbox").toList)))))
    ∧ (∀ (pp : Str → Bool) (e : ElementModel), isValidForTwoWayBinding e = false →
        (parseDirectives pp e).1.modelDirective = none)
    ∧ (∀ (pp : Str → Bool) (e : ElementModel) (v : Str),
        isValidForTwoWayBinding e = false → (PREFIX_MODEL, v) ∈ e.attrs →
        Diag.modelNotValid e.tagName e.type ∈ (parseDirectives pp e).2)
    ∧ (∀ (pp : Str → Bool) (tag ty ce v : Str),
        isValidForTwoWayBinding ⟨tag, ty, ce, [(PREFIX_MODEL, v)]⟩ = true →
        (parseDirectives pp ⟨tag, ty, ce, [(PREFIX_MODEL, v)]⟩).1.modelDirective
          = some (parseModelDirective v))
    ∧ parseDirectives (fun _ => false)
        ⟨("INPUT").toList, ("button").toList, ("inherit").toList,
         [((("data-m").toList), (("user.name").toList))]⟩
      = (⟨[], [], [], none, none⟩,
         [Diag.modelNotValid (("INPUT").toList) (("button").toList)]) :=
  ⟨isValidForTwoWayBinding_iff,
   parseDirectives_model_of_invalid,
   fun pp e v hv hmem => parseDirectives_model_diag pp e v hv hmem,
   parseDirectives_model_stores,
   by decide⟩

/-- Witness for claim C6 at the concrete `INPUT[type=button]` element with a
`data-m` attribute. -/
theorem modelDirective_eligibility_witness :
    isValidForTwoWayBinding
        ⟨("INPUT").toList, ("button").toList, ("inherit").toList,
         [((("data-m").toList), (("user.name").toList))]⟩ = false
    ∧ (parseDirectives (fun _ => false)
        ⟨("INPUT").toList, ("button").toList, ("inherit").toList,
         [((("data-m").toList), (("user.name").toList))]⟩).1.modelDirective = none
    ∧ Diag.modelNotValid (("INPUT").toList) (("button").toList) ∈
        (parseDirectives (fun _ => false)
          ⟨("INPUT").toList, ("button").toList, ("inherit").toList,
           [((("data-m").toList), (("user.name").toList))]⟩).2 :=
  ⟨by decide,
   modelDirective_eligibility.2.1 (fun _ => false) _ (by decide),
   modelDirective_eligibility.2.2.1 (fun _ => false) _ (("user.name").toList)
     (by decide) (by decide)⟩

/-! ## Handler context (`src/models/handler-context.js`, plus
`getPropertyValue` from `src/utils/properties.js`) -/

/-- A JavaScript value as the state-traversal code sees it (plain data:
numbers restricted to integers; no functions). -/
inductive JsValue where
  | undef
  | null
  | bool (b : Bool)
  | num (n : Int)
  | str (s : Str)
  | obj (fields : List (Str × JsValue))

/-- Source `isSet(value)` (`src/utils/properties.js`): neither `undefined`
nor `null`. -/
def isSet : JsValue → Bool
  | JsValue.undef => false
  | JsValue.null => false
  | _ => true

/-- Own-field lookup of a plain data object. -/
def jsField : List (Str × JsValue) → Str → JsValue
  | [], _ => JsValue.undef
  | (k, v) :: rest, part => if k = part then v else jsField rest part

/-- JS property access `current[part]` on plain data: an own field of an
object, `undefined` otherwise (primitives carry no data properties in this
model). -/
def jsIndex : JsValue → Str → JsValue
  | JsValue.obj fields, part => jsField fields part
  | _, _ => JsValue.undef

/-- Source `getPropertyValue(obj, path)`: reduce along the path; a `null` or
`undefined` intermediate propagates unchanged (the `isSet` guard), every
other value is indexed. -/
def getPropertyValue (obj : JsValue) (path : List Str) : JsValue :=
  path.foldl (fun current part => if isSet current then jsIndex current part else current) obj

/-- The `string | string[]` path parameter of `HandlerContext.get`. -/
inductive PathArg where
  | str (s : Str)
  | arr (p : List Str)

/-- The `Array.isArray(path) ? path : propertyNameToPath(path)` dispatch. -/
def PathArg.resolve : PathArg → List Str
  | PathArg.str s => propertyNameToPath s
  | PathArg.arr a => a

/-- A cleanup closure, abstracted to what disposal observes: an identifier
and whether invoking it throws. -/
structure Cleanup where
  id : Nat
  fails : Bool
deriving DecidableEq

/-- Observable events of the handler-context lifecycle: an invocation of
`dispose()`, an invocation of one cleanup closure, and the
`console.warn` of a caught cleanup failure. -/
inductive HCEvent where
  | disposeCalled
  | cleanupRan (id : Nat)
  | cleanupError (id : Nat)
deriving DecidableEq

/-- Source class `HandlerContext`: the state reference, the optional
cancellation token (present? already fired?), the `unsubscribers` cleanup
list, and the number of abort listeners registered so far — each
`addCleanup` call with a live signal registers a fresh
`() => this.dispose()` once-listener.  The opaque `config` bag is passed
through unmodified and is not modelled. -/
structure HandlerContext where
  state : JsValue
  signalPresent : Bool
  signalAborted : Bool
  unsubscribers : List Cleanup
  abortListeners : Nat

/-- Source `get(path, defaultValue = null)`: resolve the path, traverse the
state with `getPropertyValue`, and apply `?? defaultValue` (the default is
returned exactly when the traversal result is `null` or `undefined`). -/
def HandlerContext.get (hc : HandlerContext) (path : PathArg) (defaultValue : JsValue) :
    JsValue :=
  let v := getPropertyValue hc.state path.resolve
  if isSet v then v else defaultValue

/-- Source getter `isActive`: no signal, or signal not yet aborted. -/
def HandlerContext.isActive (hc : HandlerContext) : Bool :=
  !hc.signalPresent || !hc.signalAborted

/-- Invoking one cleanup closure inside `dispose()`'s try/catch: the closure
runs, and a failure is caught and logged, never propagated. -/
def runCleanup (c : Cleanup) : List HCEvent :=
  if c.fails then [HCEvent.cleanupRan c.id, HCEvent.cleanupError c.id]
  else [HCEvent.cleanupRan c.id]

/-- The `forEach` over the cleanup list, in insertion order. -/
def runAll : List Cleanup → List HCEvent
  | [] => []
  | c :: rest => runCleanup c ++ runAll rest

/-- Source `dispose()`: run every queued cleanup in insertion order (each
under try/catch), then clear the list.  The leading `disposeCalled` event
records the invocation itself. -/
def HandlerContext.dispose (hc : HandlerContext) : HandlerContext × List HCEvent :=
  ({ hc with unsubscribers := [] }, HCEvent.disposeCalled :: runAll hc.unsubscribers)

/-- Source `addCleanup(cleanupFn)`: push the closure, and when a live
(present, not yet aborted) signal exists, register one more abort
once-listener that will call `dispose()`. -/
def HandlerContext.addCleanup (hc : HandlerContext) (cleanupFn : Cleanup) : HandlerContext :=
  let hc1 := { hc with unsubscribers := hc.unsubscribers ++ [cleanupFn] }
  if hc1.signalPresent && !hc1.signalAborted then
    { hc1 with abortListeners := hc1.abortListeners + 1 }
  else hc1

/-- Abort-event delivery: each registered once-listener calls `dispose()`,
in registration order. -/
def runListeners : Nat → HandlerContext → HandlerContext × List HCEvent
  | 0, hc => (hc, [])
  | n + 1, hc =>
    let r1 := hc.dispose
    let r2 := runListeners n r1.1
    (r2.1, r1.2 ++ r2.2)

/-- Firing the cancellation token (`AbortController.abort()`): a no-op when
no signal is attached or it already fired; otherwise mark the signal aborted
and deliver the abort event to the once-listeners (which are thereby
removed). -/
def fireAbort (hc : HandlerContext) : HandlerContext × List HCEvent :=
  if !hc.signalPresent || hc.signalAborted then (hc, [])
  else
    runListeners hc.abortListeners
      { hc with signalAborted := true, abortListeners := 0 }

/-! ## Claim C10: HandlerContext.get -/

/-- Claim C10: `HandlerContext.get` returns the default exactly when the
state traversal yields `null` or `undefined` (including a missing
intermediate object), and otherwise the resolved value unchanged — falsy
non-nullish values (`0`, `false`, `""`) are returned as-is; the JS default
parameter `defaultValue = null` means a call without a default uses
`JsValue.null`. -/
theorem handlerContext_get_spec :
    (∀ (hc : HandlerContext) (path : PathArg) (d : JsValue),
      (isSet (getPropertyValue hc.state path.resolve) = false → hc.get path d = d)
      ∧ (isSet (getPropertyValue hc.state path.resolve) = true →
          hc.get path d = getPropertyValue hc.state path.resolve))
    ∧ HandlerContext.get
        ⟨JsValue.obj [((("count").toList), JsValue.num 0)], false, false, [], 0⟩
        (PathArg.str (("count").toList)) (JsValue.num 5) = JsValue.num 0
    ∧ HandlerContext.get
        ⟨JsValue.obj [((("active").toList), JsValue.bool false)], false, false, [], 0⟩
        (PathArg.str (("active").toList)) (JsValue.str (("x").toList)) = JsValue.bool false
    ∧ HandlerContext.get
        ⟨JsValue.obj [((("name").toList), JsValue.str [])], false, false, [], 0⟩
        (PathArg.str (("name").toList)) (JsValue.num 1) = JsValue.str []
    ∧ HandlerContext.get ⟨JsValue.obj [], false, false, [], 0⟩
        (PathArg.str (("a.b").toList)) (JsValue.num 7) = JsValue.num 7
    ∧ HandlerContext.get
        ⟨JsValue.obj [((("user").toList), JsValue.null)], false, false, [], 0⟩
        (PathArg.str (("user.name").toList)) (JsValue.str (("d").toList))
        = JsValue.str (("d").toList)
    ∧ HandlerContext.get ⟨JsValue.obj [], false, false, [], 0⟩
        (PathArg.str (("missing").toList)) JsValue.null = JsValue.null := by
  refine ⟨?_, rfl, rfl, rfl, rfl, rfl, rfl⟩
  intro hc path d
  constructor <;> intro h <;> simp [HandlerContext.get, h]

/-- Witness for claim C10 at a concrete missing-intermediate lookup and a
concrete falsy-but-present one. -/
theorem handlerContext_get_spec_witness :
    HandlerContext.get ⟨JsValue.obj [], false, false, [], 0⟩
        (PathArg.str (("a.b").toList)) (JsValue.num 7) = JsValue.num 7
    ∧ HandlerContext.get
        ⟨JsValue.obj [((("count").toList), JsValue.num 0)], false, false, [], 0⟩
        (PathArg.str (("count").toList)) (JsValue.num 5)
      = getPropertyValue (JsValue.obj [((("count").toList), JsValue.num 0)])
          (PathArg.str (("count").toList)).resolve :=
  ⟨(handlerContext_get_spec.1 ⟨JsValue.obj [], false, false, [], 0⟩
      (PathArg.str (("a.b").toList)) (JsValue.num 7)).1 rfl,
   (handlerContext_get_spec.1
      ⟨JsValue.obj [((("count").toList), JsValue.num 0)], false, false, [], 0⟩
      (PathArg.str (("count").toList)) (JsValue.num 5)).2 rfl⟩

/-! ## Claims C7 and C8: disposal and cancellation -/

def isRanEvent : HCEvent → Bool
  | HCEvent.cleanupRan _ => true
  | _ => false

def isErrorEvent : HCEvent → Bool
  | HCEvent.cleanupError _ => true
  | _ => false

theorem runAll_filter_ran : ∀ l : List Cleanup,
    (runAll l).filter isRanEvent = l.map (fun c => HCEvent.cleanupRan c.id)
  | [] => rfl
  | c :: rest => by
    by_cases h : c.fails <;>
      simp [runAll, runCleanup, h, isRanEvent, runAll_filter_ran rest]

theorem runAll_filter_err : ∀ l : List Cleanup,
    (runAll l).filter isErrorEvent
      = (l.filter (fun c => c.fails)).map (fun c => HCEvent.cleanupError c.id)
  | [] => rfl
  | c :: rest => by
    by_cases h : c.fails <;>
      simp [runAll, runCleanup, h, isErrorEvent, runAll_filter_err rest]

theorem runAll_count_dispose : ∀ l : List Cleanup,
    (runAll l).count HCEvent.disposeCalled = 0
  | [] => rfl
  | c :: rest => by
    by_cases h : c.fails <;>
      simp [runAll, runCleanup, h, List.count_append, runAll_count_dispose rest, List.count_cons]

theorem filter_replicate_none {α : Type} (p : α → Bool) (a : α) (h : p a = false) :
    ∀ n : Nat, (List.replicate n a).filter p = []
  | 0 => rfl
  | n + 1 => by simp [List.replicate, h, filter_replicate_none p a h n]

theorem count_replicate_self {α : Type} [DecidableEq α] (a : α) :
    ∀ n : Nat, (List.replicate n a).count a = n
  | 0 => rfl
  | n + 1 => by simp [List.replicate, List.count_cons, count_replicate_self a n]

/-- Claim C8: `dispose()` invokes every queued cleanup exactly once, in
insertion order, regardless of failures (each failure is caught and logged so
the remaining closures still run), then clears the list; a second `dispose()`
invokes no cleanup (and, being total, cannot throw); and a cleanup added
after a disposal runs exactly once on the next disposal. -/
theorem dispose_spec : ∀ hc : HandlerContext,
    (hc.dispose.2.filter isRanEvent = hc.unsubscribers.map (fun c => HCEvent.cleanupRan c.id))
    ∧ (hc.dispose.2.filter isErrorEvent
        = (hc.unsubscribers.filter (fun c => c.fails)).map (fun c => HCEvent.cleanupError c.id))
    ∧ hc.dispose.1.unsubscribers = []
    ∧ hc.dispose.1.dispose.2 = [HCEvent.disposeCalled]
    ∧ (∀ c : Cleanup, ((hc.dispose.1.addCleanup c).dispose.2.filter isRanEvent
        = [HCEvent.cleanupRan c.id])) := by
  intro hc
  refine ⟨?_, ?_, rfl, rfl, ?_⟩
  · simp [HandlerContext.dispose, isRanEvent, runAll_filter_ran]
  · simp [HandlerContext.dispose, isErrorEvent, runAll_filter_err]
  · intro c
    by_cases h : hc.signalPresent && !hc.signalAborted <;>
      simp [HandlerContext.dispose, HandlerContext.addCleanup, h, isRanEvent,
        runAll, runCleanup, List.filter_append] <;>
      by_cases hf : c.fails <;> simp [hf, isRanEvent]

theorem foldl_addCleanup (st : JsValue) : ∀ (cs u : List Cleanup) (n : Nat),
    cs.foldl HandlerContext.addCleanup ⟨st, true, false, u, n⟩
      = ⟨st, true, false, u ++ cs, n + cs.length⟩
  | [], u, n => by simp
  | c :: cs', u, n => by
    rw [List.foldl_cons]
    have hstep : HandlerContext.addCleanup ⟨st, true, false, u, n⟩ c
        = ⟨st, true, false, u ++ [c], n + 1⟩ := rfl
    rw [hstep, foldl_addCleanup st cs' (u ++ [c]) (n + 1)]
    congr 1
    · simp
    · simp
      omega

theorem runListeners_empty (st : JsValue) (sp sa : Bool) (k : Nat) : ∀ n : Nat,
    runListeners n ⟨st, sp, sa, [], k⟩
      = (⟨st, sp, sa, [], k⟩, List.replicate n HCEvent.disposeCalled)
  | 0 => rfl
  | n + 1 => by
    simp [runListeners, HandlerContext.dispose, runAll, List.replicate,
      runListeners_empty st sp sa k n]

/-- Counterexample to claim C7 as stated: with a live cancellation token and
two cleanups added before cancellation, firing the token invokes `dispose`
twice — once per listener registered by `addCleanup` — not exactly once. -/
theorem fireAbort_dispose_twice :
    ((fireAbort ((HandlerContext.addCleanup
        (HandlerContext.addCleanup ⟨JsValue.null, true, false, [], 0⟩ ⟨1, false⟩)
        ⟨2, false⟩))).2.count HCEvent.disposeCalled = 2)
    ∧ (2 : Nat) ≠ 1 := by
  constructor
  · rfl
  · decide

/-- Claim C7 amended: when a live token is supplied, firing it invokes
`dispose` automatically once per cleanup added before cancellation (zero
times when none were added, since only `addCleanup` registers listeners);
the queued cleanups nevertheless run exactly once each, in insertion order,
during the first invocation; firing the already-fired token again is a
no-op; and firing after an explicit `dispose()` re-runs no cleanup. -/
theorem fireAbort_spec (cs : List Cleanup) (st : JsValue) :
    ((fireAbort (cs.foldl HandlerContext.addCleanup ⟨st, true, false, [], 0⟩)).2.count
        HCEvent.disposeCalled = cs.length)
    ∧ ((fireAbort (cs.foldl HandlerContext.addCleanup ⟨st, true, false, [], 0⟩)).2.filter
        isRanEvent = cs.map (fun c => HCEvent.cleanupRan c.id))
    ∧ (fireAbort (fireAbort
        (cs.foldl HandlerContext.addCleanup ⟨st, true, false, [], 0⟩)).1).2 = []
    ∧ ((fireAbort (cs.foldl HandlerContext.addCleanup
        ⟨st, true, false, [], 0⟩).dispose.1).2.filter isRanEvent = []) := by
  have hfold : cs.foldl HandlerContext.addCleanup ⟨st, true, false, [], 0⟩
      = ⟨st, true, false, cs, cs.length⟩ := by
    have h := foldl_addCleanup st cs [] 0
    simpa using h
  rw [hfold]
  cases cs with
  | nil =>
    refine ⟨rfl, rfl, rfl, rfl⟩
  | cons c cs' =>
    have h1 : fireAbort ⟨st, true, false, c :: cs', (c :: cs').length⟩
        = runListeners (cs'.length + 1) ⟨st, true, true, c :: cs', 0⟩ := by
      simp [fireAbort]
    have h2 : runListeners (cs'.length + 1) ⟨st, true, true, c :: cs', 0⟩
        = (⟨st, true, true, [], 0⟩,
           (HCEvent.disposeCalled :: runAll (c :: cs'))
             ++ List.replicate cs'.length HCEvent.disposeCalled) := by
      simp [runListeners, HandlerContext.dispose, runListeners_empty st true true 0 cs'.length]
    have h3 : fireAbort ⟨st, true, false, c :: cs', (c :: cs').length⟩
        = (⟨st, true, true, [], 0⟩,
           (HCEvent.disposeCalled :: runAll (c :: cs'))
             ++ List.replicate cs'.length HCEvent.disposeCalled) := h1.trans h2
    refine ⟨?_, ?_, ?_, ?_⟩
    · rw [h3]
      simp [List.count_append, List.count_cons, runAll_count_dispose,
        count_replicate_self]
    · rw [h3]
      simp only [List.filter_append, List.filter_cons]
      simp [isRanEvent, runAll_filter_ran,
        filter_replicate_none isRanEvent HCEvent.disposeCalled rfl]
    · rw [h3]
      simp [fireAbort]
    · have hd : (HandlerContext.dispose ⟨st, true, false, c :: cs', (c :: cs').length⟩).1
          = ⟨st, true, false, [], (c :: cs').length⟩ := rfl
      rw [hd]
      have h4 : fireAbort ⟨st, true, false, [], (c :: cs').length⟩
          = runListeners ((c :: cs').length) ⟨st, true, true, [], 0⟩ := by
        simp [fireAbort]
      rw [h4, runListeners_empty st true true 0]
      simp [filter_replicate_none isRanEvent HCEvent.disposeCalled rfl]

/-! ## Bridge base (`src/models/bridge-base.js`) -/

/-- A bridge as `bindElement` sees it: the subclass name (used in the error
message via `this.constructor.name`), the required `isStateCompatible`
predicate, and the parser's `processElement` — which scans the element,
builds the handler context and dispatches the callbacks — abstracted as a
function producing the context and the dispatch result. -/
structure BridgeModel (Elem State Ctx Res : Type) where
  name : Str
  isStateCompatible : State → Bool
  processElement : Elem → State → Ctx × Res

/-- The bridge's only mutable state: the `boundElements` map. -/
structure BridgeState (Elem Ctx : Type) where
  boundElements : List (Elem × Ctx)
deriving DecidableEq

/-- Observable side effect of a bind call: disposal of a previously bound
element's context (performed by `unbindElement`). -/
inductive BindEvent (Ctx : Type) where
  | disposedPrevious (c : Ctx)
deriving DecidableEq

/-- Source `unbindElement(element)`: when the element is bound, dispose its
context and delete it from the map. -/
def unbindElement {Elem Ctx : Type} [DecidableEq Elem]
    (bs : BridgeState Elem Ctx) (element : Elem) :
    BridgeState Elem Ctx × List (BindEvent Ctx) :=
  match bs.boundElements.lookup element with
  | some context =>
    (⟨bs.boundElements.filter (fun p => ¬ p.1 = element)⟩,
      [BindEvent.disposedPrevious context])
  | none => (bs, [])

/-- Source `bindElement(element, state, options)`: throw the
incompatible-state error before anything else; otherwise unbind any previous
binding of the element, process the element, record the new context in
`boundElements`, and return the bind result.  The thrown error is modelled
as `Except.error` carrying the message; it carries no updated state and no
disposal event. -/
def bindElement {Elem State Ctx Res : Type} [DecidableEq Elem]
    (bridge : BridgeModel Elem State Ctx Res) (bs : BridgeState Elem Ctx)
    (element : Elem) (state : State) :
    Except Str (BridgeState Elem Ctx × Ctx × Res × List (BindEvent Ctx)) :=
  if ¬ bridge.isStateCompatible state then
    Except.error ((("State is not compatible with bridge ").toList) ++ bridge.name)
  else
    let r0 := unbindElement bs element
    let pr := bridge.processElement element state
    Except.ok (⟨mapSet r0.1.boundElements element pr.1⟩, pr.1, pr.2, r0.2)

/-- Claim C9: when the bridge's compatibility predicate rejects the state,
`bindElement` raises the incompatible-state error and aborts before any
directive processing: the result is exactly the error (carrying no updated
bound-elements table, no new context and no disposal event), so the caller's
`boundElements` table is unchanged and any previously established binding
for the element is neither disposed nor replaced. -/
theorem bindElement_incompatible {Elem State Ctx Res : Type} [DecidableEq Elem]
    (bridge : BridgeModel Elem State Ctx Res) (bs : BridgeState Elem Ctx)
    (element : Elem) (state : State)
    (h : bridge.isStateCompatible state = false) :
    bindElement bridge bs element state
      = Except.error ((("State is not compatible with bridge ").toList) ++ bridge.name) := by
  simp [bindElement, h]

/-- Witness for claim C9 at a concrete always-incompatible bridge with one
already-bound element. -/
theorem bindElement_incompatible_witness :
    bindElement
      (⟨("TestBridge").toList, fun _ => false, fun _ _ => (0, 0)⟩
        : BridgeModel Nat Nat Nat Nat)
      ⟨[(5, 11)]⟩ 5 7
      = Except.error ((("State is not compatible with bridge ").toList)
          ++ ("TestBridge").toList) :=
  bindElement_incompatible
    (⟨("TestBridge").toList, fun _ => false, fun _ _ => (0, 0)⟩
      : BridgeModel Nat Nat Nat Nat)
    ⟨[(5, 11)]⟩ 5 7 rfl

end UiBinder
